import Mathlib

/-!
# AndroidVitalsReporter: the two report handlers of `main.go`

A shallow embedding of `getWeeklyCrashRate`, `getWeeklyAvgComparison`,
`formatCrashData` and `parseDecimal`, together with the parts of the Go
runtime they rely on (binary64 arithmetic, number scanning and printing,
`time.Parse`, the JSON encoder of a `[]WeeklyAvg`).

Go `float64` values are modelled exactly: a finite value is a sign, a
mantissa and a binary exponent, and every operation rounds the exact result
to the nearest representable value, ties to even.

The calls that leave the process (loading the credentials, creating the
service, the two queries, drawing and re-reading the chart file) are inputs of
the handlers: each handler is a function from the results of those calls to
the response the client receives. The query windows computed from
`time.Now()` only parameterise the queries and the lines printed to standard
output do not reach the client; neither is part of the model.
-/

deriving instance DecidableEq for Except

namespace Vitals

/-! ## binary64 -/

/-- A Go `float64`. A finite value is `(-1)^neg * m * 2^e`; the results of the
operations below are kept in the canonical form `m < 2^53`, `-1074 ≤ e`, and
`2^52 ≤ m` unless `e = -1074`. -/
inductive F64 where
  | nan : F64
  | inf (neg : Bool) : F64
  | fin (neg : Bool) (m : Nat) (e : Int) : F64
  deriving DecidableEq, Repr

/-- Number of binary digits of `n`, by halving; `fuel` bounds the recursion. -/
def bitLenAux : Nat → Nat → Nat
  | 0, _ => 0
  | fuel + 1, n => if n = 0 then 0 else bitLenAux fuel (n / 2) + 1

/-- Number of binary digits of `n` (`0` for `0`). -/
def bitLen (n : Nat) : Nat := bitLenAux n n

/-- The power of two `2^k` applied to a fraction `num/den`, as a fraction. -/
def scale2 (num den : Nat) (k : Int) : Nat × Nat :=
  if 0 ≤ k then (num * 2 ^ k.toNat, den) else (num, den * 2 ^ (-k).toNat)

/-- Nearest integer to `a / b`, ties to the even one. -/
def roundHalfEven (a b : Nat) : Nat :=
  let q := a / b
  let r := a % b
  if b < 2 * r ∨ (2 * r = b ∧ q % 2 = 1) then q + 1 else q

/-- The binary64 nearest to `(-1)^neg * num / den` (round to nearest, ties to
even); magnitudes that round beyond the largest finite value give an infinity. -/
def roundToF64 (neg : Bool) (num den : Nat) : F64 :=
  if num = 0 ∨ den = 0 then .fin neg 0 (-1074) else
  let lg : Int := (bitLen num : Int) - (bitLen den : Int)
  let s := scale2 num den (-lg)
  let fl : Int := if s.2 ≤ s.1 then lg else lg - 1
  let e : Int := max (fl - 52) (-1074)
  let t := scale2 num den (-e)
  let q := roundHalfEven t.1 t.2
  let m := if q = 2 ^ 53 then 2 ^ 52 else q
  let e1 := if q = 2 ^ 53 then e + 1 else e
  if 971 < e1 then .inf neg else .fin neg m e1

namespace F64

/-- Whether the value is neither NaN nor an infinity. -/
def isFinite : F64 → Bool
  | fin _ _ _ => true
  | _ => false

/-- Positive zero, the zero value of a Go `float64` variable. -/
def zero : F64 := .fin false 0 (-1074)

/-- Conversion of an integer, as in Go's `float64(n)`. -/
def ofInt (n : Int) : F64 := roundToF64 (decide (n < 0)) n.natAbs 1

/-- IEEE 754 multiplication, as Go's `*` on `float64`. -/
def mul : F64 → F64 → F64
  | nan, _ => nan
  | _, nan => nan
  | inf s, inf t => inf (xor s t)
  | inf s, fin t m _ => if m = 0 then nan else inf (xor s t)
  | fin s m _, inf t => if m = 0 then nan else inf (xor s t)
  | fin s m e, fin t n f =>
    let p := scale2 (m * n) 1 (e + f)
    roundToF64 (xor s t) p.1 p.2

end F64

/-! ## decimal digits -/

/-- The character of a decimal digit `d < 10`. -/
def digitChar (d : Nat) : Char := Char.ofNat (48 + d)

/-- Whether a character is one of `0`..`9`. -/
def isDigit (c : Char) : Bool := decide (48 ≤ c.toNat ∧ c.toNat ≤ 57)

/-- The value of a decimal digit character. -/
def digitVal (c : Char) : Nat := c.toNat - 48

/-- Decimal digits of `n` pushed in front of `acc`, most significant first. -/
def natDigitsAux : Nat → Nat → List Char → List Char
  | 0, _, acc => acc
  | fuel + 1, n, acc =>
    if n < 10 then digitChar n :: acc
    else natDigitsAux fuel (n / 10) (digitChar (n % 10) :: acc)

/-- The decimal numeral of `n`, as Go's `%d` prints a non-negative integer. -/
def natDigits (n : Nat) : List Char := natDigitsAux (n + 1) n []

/-- The number a list of decimal digit characters denotes. -/
def digitsVal (cs : List Char) : Nat := cs.foldl (fun a c => 10 * a + digitVal c) 0

/-! ## `strconv.ParseFloat` -/

/-- What `strconv.ParseFloat` hands back: Go returns the value together with
the error, and a caller that drops the error still gets the value. -/
structure ParseOut where
  val : F64
  ok : Bool
  deriving DecidableEq, Repr

/-- ASCII lower case of a letter, as `c | 0x20` selects it in `strconv`. -/
def lowerChar (c : Char) : Char :=
  if 65 ≤ c.toNat ∧ c.toNat ≤ 90 then Char.ofNat (c.toNat + 32) else c

/-- The special values `strconv.ParseFloat` accepts: `nan` without a sign and
`inf` or `infinity` with an optional sign, in any letter case. -/
def parseSpecial (cs : List Char) : Option F64 :=
  let l := cs.map lowerChar
  let isInf (r : List Char) : Bool :=
    decide (r = ['i', 'n', 'f']) || decide (r = ['i', 'n', 'f', 'i', 'n', 'i', 't', 'y'])
  if l = ['n', 'a', 'n'] then some .nan
  else if l.head? = some '+' then (if isInf l.tail then some (.inf false) else none)
  else if l.head? = some '-' then (if isInf l.tail then some (.inf true) else none)
  else if isInf l then some (.inf false) else none

/-- Exponent digits accumulated as `readFloat` does: once the running value
has reached 10000 further digits are skipped. -/
def expDigitsVal (cs : List Char) : Nat :=
  cs.foldl (fun a c => if a < 10000 then 10 * a + digitVal c else a) 0

/-- The optional exponent part of a decimal numeral: `none` when the text is
malformed, otherwise the signed exponent (`0` when the text is empty). -/
def readExponent : List Char → Option Int
  | [] => some 0
  | c :: cs =>
    if c = 'e' ∨ c = 'E' then
      match cs with
      | [] => none
      | '+' :: ds => if ds ≠ [] ∧ ds.all isDigit then some (expDigitsVal ds) else none
      | '-' :: ds => if ds ≠ [] ∧ ds.all isDigit then some (-(expDigitsVal ds : Int)) else none
      | ds => if ds.all isDigit then some (expDigitsVal ds) else none
    else none

/-- A decimal numeral read as `readFloat` reads it: optional sign, digits with
at most one point, optional exponent, and nothing else. The result is the
sign, the digits of the mantissa as a number, and the power of ten. -/
def readDecimal (cs : List Char) : Option (Bool × Nat × Int) :=
  let neg := decide (cs.head? = some '-')
  let body := if cs.head? = some '-' ∨ cs.head? = some '+' then cs.tail else cs
  let ip := body.takeWhile isDigit
  let r1 := body.dropWhile isDigit
  let fp := if r1.head? = some '.' then r1.tail.takeWhile isDigit else []
  let r2 := if r1.head? = some '.' then r1.tail.dropWhile isDigit else r1
  if ip = [] ∧ fp = [] then none
  else
    match readExponent r2 with
    | none => none
    | some ex => some (neg, digitsVal (ip ++ fp), ex - (fp.length : Int))

/-- The value `(-1)^neg * d * 10^k` rounded to binary64. -/
def decimalToF64 (neg : Bool) (d : Nat) (k : Int) : F64 :=
  if 0 ≤ k then roundToF64 neg (d * 10 ^ k.toNat) 1 else roundToF64 neg d (10 ^ (-k).toNat)

/-- Whether a character is a hexadecimal digit. -/
def isHexDigit (c : Char) : Bool :=
  isDigit c || decide (97 ≤ c.toNat ∧ c.toNat ≤ 102) || decide (65 ≤ c.toNat ∧ c.toNat ≤ 70)

/-- The value of a hexadecimal digit character. -/
def hexDigitVal (c : Char) : Nat :=
  if isDigit c then c.toNat - 48 else if 97 ≤ c.toNat then c.toNat - 87 else c.toNat - 55

/-- The number a list of hexadecimal digit characters denotes. -/
def hexDigitsVal (cs : List Char) : Nat := cs.foldl (fun a c => 16 * a + hexDigitVal c) 0

/-- The loop of `underscoreOK`: `saw` is the kind of the last character, `0`
for a digit or base prefix, `_` for an underscore, `!` for anything else and
`^` at the start. An underscore must follow a digit and be followed by one. -/
def underscoreLoop (hex : Bool) : Char → List Char → Bool
  | saw, [] => saw != '_'
  | saw, c :: cs =>
    if isDigit c || (hex && isHexDigit c) then underscoreLoop hex '0' cs
    else if c = '_' then (if saw = '0' then underscoreLoop hex '_' cs else false)
    else if saw = '_' then false
    else underscoreLoop hex '!' cs

/-- The function `underscoreOK` of `strconv`: whether the underscores of a
numeral are placed as Go's literal syntax allows, after an optional sign and
an optional base prefix `0b`, `0o` or `0x`. -/
def underscoreOK (s : List Char) : Bool :=
  let s1 := if s.head? = some '-' ∨ s.head? = some '+' then s.tail else s
  match s1 with
  | z :: p :: rest =>
    if z = '0' ∧ (lowerChar p = 'b' ∨ lowerChar p = 'o' ∨ lowerChar p = 'x') then
      underscoreLoop (decide (lowerChar p = 'x')) '0' rest
    else underscoreLoop false '^' s1
  | _ => underscoreLoop false '^' s1

/-- The mandatory binary exponent of a hexadecimal numeral: `p` or `P`, an
optional sign and at least one decimal digit. -/
def readBinExponent : List Char → Option Int
  | [] => none
  | c :: cs =>
    if c = 'p' ∨ c = 'P' then
      match cs with
      | [] => none
      | '+' :: ds => if ds ≠ [] ∧ ds.all isDigit then some (expDigitsVal ds) else none
      | '-' :: ds => if ds ≠ [] ∧ ds.all isDigit then some (-(expDigitsVal ds : Int)) else none
      | ds => if ds.all isDigit then some (expDigitsVal ds) else none
    else none

/-- The part of a hexadecimal numeral after the prefix `0x`: hexadecimal
digits with at most one point, then the binary exponent, and nothing else.
The result is the mantissa digits as a number and the power of two. -/
def readHex (body : List Char) : Option (Nat × Int) :=
  let ip := body.takeWhile isHexDigit
  let r1 := body.dropWhile isHexDigit
  let fp := if r1.head? = some '.' then r1.tail.takeWhile isHexDigit else []
  let r2 := if r1.head? = some '.' then r1.tail.dropWhile isHexDigit else r1
  if ip = [] ∧ fp = [] then none
  else
    match readBinExponent r2 with
    | none => none
    | some ex => some (hexDigitsVal (ip ++ fp), ex - 4 * (fp.length : Int))

/-- The result of `strconv.ParseFloat` once the numeral is read: a syntax
error gives `0`, a value out of range gives the infinity, both with the error
set. -/
def decimalOut (r : Option (Bool × Nat × Int)) : ParseOut :=
  match r with
  | none => ⟨F64.zero, false⟩
  | some (neg, d, k) => ⟨decimalToF64 neg d k, (decimalToF64 neg d k).isFinite⟩

/-- A numeral without underscores read as `readFloat` reads it: after the
optional sign, `0x` or `0X` followed by at least one more character starts a
hexadecimal numeral, anything else is read as a decimal numeral. -/
def parseNumber (cs : List Char) : ParseOut :=
  let neg := decide (cs.head? = some '-')
  let body := if cs.head? = some '-' ∨ cs.head? = some '+' then cs.tail else cs
  match body with
  | z :: x :: c :: rest =>
    if z = '0' ∧ (x = 'x' ∨ x = 'X') then
      match readHex (c :: rest) with
      | none => ⟨F64.zero, false⟩
      | some (m, k) =>
        let f := roundToF64 neg (scale2 m 1 k).1 (scale2 m 1 k).2
        ⟨f, f.isFinite⟩
    else decimalOut (readDecimal cs)
  | _ => decimalOut (readDecimal cs)

/-- Whether a character is neither an underscore nor the letter of the
hexadecimal prefix. -/
def plainChar (c : Char) : Bool := !(decide (c = '_') || decide (c = 'x') || decide (c = 'X'))

/-- `strconv.ParseFloat(s, 64)`: the special values, decimal numerals and
hexadecimal numerals, with underscores between digits. A text without
underscore and without `x` is a decimal numeral or a syntax error; otherwise
misplaced underscores are a syntax error, and well placed ones are skipped. -/
def strconvParseFloat (cs : List Char) : ParseOut :=
  match parseSpecial cs with
  | some f => ⟨f, true⟩
  | none =>
    if cs.all plainChar then decimalOut (readDecimal cs)
    else if cs.contains '_' && !underscoreOK cs then ⟨F64.zero, false⟩
    else parseNumber (cs.filter (fun c => c ≠ '_'))

/-! ## `strconv.Atoi` and `math.Ldexp` -/

/-- `strconv.Atoi` where `int` has 64 bits: an optional sign and one or more
decimal digits, denoting a number that fits `int`. -/
def atoi (cs : List Char) : Option Int :=
  let neg := decide (cs.head? = some '-')
  let ds := if cs.head? = some '-' ∨ cs.head? = some '+' then cs.tail else cs
  if ds ≠ [] ∧ ds.all isDigit then
    let v : Int := if neg then -(digitsVal ds : Int) else (digitsVal ds : Int)
    if -(2 : Int) ^ 63 ≤ v ∧ v < (2 : Int) ^ 63 then some v else none
  else none

/-- A Go `int` sum: the result wraps around at 64 bits. -/
def wrapInt64 (n : Int) : Int := (n + 2 ^ 63) % 2 ^ 64 - 2 ^ 63

/-- `math.Ldexp(frac, exp)`: zero, infinities and NaN are returned as they
are; otherwise the binary exponent of the result is the exponent of `frac`
plus `exp` as an `int` sum, a result below the smallest subnormal's half is a
zero, one beyond the largest exponent an infinity, and anything else is
`frac * 2^exp` rounded to binary64. -/
def ldexp (frac : F64) (exp : Int) : F64 :=
  match frac with
  | .fin neg m e =>
    if m = 0 then frac
    else
      let ex0 : Int := (bitLen m : Int) + e - 1
      let ex := wrapInt64 (exp + ex0)
      if ex < -1075 then .fin neg 0 (-1074)
      else if 1023 < ex then .inf neg
      else
        let p := scale2 m 1 (e + (ex - ex0))
        roundToF64 neg p.1 p.2
  | f => f

/-! ## `fmt.Sscanf(value, "%f", &result)` -/

/-- The space characters of `fmt`'s scanner. -/
def isScanSpace (c : Char) : Bool :=
  let n := c.toNat
  decide ((9 ≤ n ∧ n ≤ 13) ∨ n = 32 ∨ n = 133 ∨ n = 160 ∨ n = 5760 ∨ (8192 ≤ n ∧ n ≤ 8202) ∨
    n = 8232 ∨ n = 8233 ∨ n = 8239 ∨ n = 8287 ∨ n = 12288)

/-- The scanner's `SkipSpace` for `Sscanf`: leading spaces are dropped, a
carriage return directly before a newline too, and a newline is an error. -/
def skipSpace : List Char → Option (List Char)
  | [] => some []
  | c :: cs =>
    if c = '\r' ∧ cs.head? = some '\n' then skipSpace cs
    else if c = '\n' then none
    else if isScanSpace c then skipSpace cs
    else some (c :: cs)

/-- The scanner state of `floatToken`: the token so far and the unread input. -/
structure Scan where
  buf : List Char
  rest : List Char

/-- The scanner's `accept`: consume the next character when it is in the set. -/
def Scan.accept (s : Scan) (set : List Char) : Scan × Bool :=
  match s.rest with
  | c :: cs => if c ∈ set then (⟨s.buf ++ [c], cs⟩, true) else (s, false)
  | [] => (s, false)

/-- The loops `for s.accept(digits) {}`: consume characters while they are of
the given class. -/
def Scan.acceptWhile (s : Scan) (ok : Char → Bool) : Scan :=
  ⟨s.buf ++ s.rest.takeWhile ok, s.rest.dropWhile ok⟩

/-- The scanner's `floatToken`: the longest prefix that looks like a
floating-point number. That is `nan`; or an optional sign and `inf`; or an
optional sign, an optional `0x`, digits (hexadecimal after `0x`) and
underscores, an optional point with more of them, and an optional exponent:
one of `eEpP` (after `0x` one of `pP`), an optional sign, decimal digits and
underscores. -/
def floatToken (input : List Char) : List Char :=
  let s0 : Scan := ⟨[], input⟩
  let a1 := s0.accept ['n', 'N']
  let a2 := if a1.2 then a1.1.accept ['a', 'A'] else a1
  let a3 := if a2.2 then a2.1.accept ['n', 'N'] else a2
  if a3.2 then a3.1.buf
  else
    let b0 := (a3.1.accept ['+', '-']).1
    let b1 := b0.accept ['i', 'I']
    let b2 := if b1.2 then b1.1.accept ['n', 'N'] else b1
    let b3 := if b2.2 then b2.1.accept ['f', 'F'] else b2
    if b3.2 then b3.1.buf
    else
      let h0 := b3.1.accept ['0']
      let h1 := if h0.2 then h0.1.accept ['x', 'X'] else h0
      let digits : Char → Bool :=
        if h1.2 then (fun c => isHexDigit c || decide (c = '_'))
        else (fun c => isDigit c || decide (c = '_'))
      let exp : List Char := if h1.2 then ['p', 'P'] else ['e', 'E', 'p', 'P']
      let c0 := h1.1.acceptWhile digits
      let c1 := c0.accept ['.']
      let c2 := if c1.2 then c1.1.acceptWhile digits else c1.1
      let d0 := c2.accept exp
      if d0.2 then
        ((d0.1.accept ['+', '-']).1.acceptWhile (fun c => isDigit c || decide (c = '_'))).buf
      else d0.1.buf

/-- The scanner's `convertFloat`: a token with a `p` and without `x` or `X`
is a decimal number times a power of two, converted with
`strconv.ParseFloat` on the text before the `p`, `strconv.Atoi` on the text
after it and `math.Ldexp`; any other token goes to `strconv.ParseFloat`. An
error of either conversion makes the scan fail (`none`). -/
def convertFloat (tok : List Char) : Option F64 :=
  if tok.contains 'p' && !(tok.contains 'x' || tok.contains 'X') then
    let out := strconvParseFloat (tok.takeWhile (fun c => c ≠ 'p'))
    if out.ok then
      match atoi (tok.dropWhile (fun c => c ≠ 'p')).tail with
      | none => none
      | some m => some (ldexp out.val m)
    else none
  else
    let out := strconvParseFloat tok
    if out.ok then some out.val else none

/-- The outcome of `fmt.Sscanf(value, "%f", &result)` for `result`: the scanned
value, or `none` when scanning fails and `result` is left untouched. Leading
space is skipped, the token is read and converted, and a conversion error
(syntax or range) makes the scan fail; text after the token is ignored. -/
def sscanfFloat (value : String) : Option F64 :=
  match skipSpace value.data with
  | none => none
  | some [] => none
  | some rest => convertFloat (floatToken rest)

/-! ## `fmt.Sprintf` -/

/-- Two decimal digits of `n % 100`. -/
def twoDigits (n : Nat) : List Char := [digitChar (n / 10 % 10), digitChar (n % 10)]

/-- The verb `%.2f` of `fmt.Sprintf`: the exact value rounded to hundredths
(ties to even), with all integer digits and exactly two decimals. -/
def fmtFixed2 : F64 → List Char
  | .nan => ['N', 'a', 'N']
  | .inf false => ['+', 'I', 'n', 'f']
  | .inf true => ['-', 'I', 'n', 'f']
  | .fin neg m e =>
    let t := scale2 (m * 100) 1 e
    let h := roundHalfEven t.1 t.2
    (if neg then ['-'] else []) ++ natDigits (h / 100) ++ ['.'] ++ twoDigits h

/-- The verb `%d` on an `int64`. -/
def fmtInt (n : Int) : List Char :=
  (if n < 0 then ['-'] else []) ++ natDigits n.natAbs

/-- The verb `%02d` on an `int64`: at least two characters, zeros after the
sign. -/
def fmtInt02 (n : Int) : List Char :=
  if n < 0 then '-' :: natDigits n.natAbs
  else if n < 10 then '0' :: natDigits n.natAbs
  else natDigits n.natAbs

/-! ## `strconv.FormatFloat(f, fmt, -1, 64)`: shortest digits -/

/-- The decimal point position of a positive fraction: the `p` with
`10^(p-1) ≤ num/den < 10^p`. -/
def decimalPoint (num den : Nat) : Int :=
  let p0 : Int := ((natDigits num).length : Int) - ((natDigits den).length : Int)
  let lhs := if 0 ≤ p0 then num else num * 10 ^ (-p0).toNat
  let rhs := if 0 ≤ p0 then den * 10 ^ p0.toNat else den
  if rhs ≤ lhs then p0 + 1 else p0

/-- The value `d * 10^k` as a fraction. -/
def scale10 (d : Nat) (k : Int) : Nat × Nat :=
  if 0 ≤ k then (d * 10 ^ k.toNat, 1) else (d, 10 ^ (-k).toNat)

/-- Whether the decimal `d * 10^k` reads back as the finite value `m * 2^e`. -/
def readsBack (m : Nat) (e : Int) (d : Nat) (k : Int) : Bool :=
  let c := scale10 d k
  decide (roundToF64 false c.1 c.2 = .fin false m e)

/-- Search for the shortest decimal that reads back as `m * 2^e`, trying
`n`, `n+1`, ... significant digits: with `n` digits the value is cut off
(`lo`) or cut off and bumped (`lo + 1`); when both read back the nearer one is
taken, a tie going to the even digit. The result is the digits as a number
and the power of ten of the last digit. -/
def shortestAux (m : Nat) (e : Int) (p : Int) : Nat → Nat → Nat × Int
  | 0, n =>
    let k := p - (n : Int)
    let f := scale2 m 1 e
    let g := scale10 1 k
    (roundHalfEven (f.1 * g.2) (f.2 * g.1), k)
  | fuel + 1, n =>
    let k := p - (n : Int)
    let f := scale2 m 1 e
    let g := scale10 1 k
    let a := f.1 * g.2
    let b := f.2 * g.1
    let lo := a / b
    let okdown := readsBack m e lo k
    let okup := readsBack m e (lo + 1) k
    if okdown && okup then (roundHalfEven a b, k)
    else if okdown then (lo, k)
    else if okup then (lo + 1, k)
    else shortestAux m e p fuel (n + 1)

/-- The shortest decimal digits of a positive finite value `m * 2^e`, and the
position of the decimal point relative to the first digit; trailing zeros
are not kept. -/
def shortest (m : Nat) (e : Int) : List Char × Int :=
  let f := scale2 m 1 e
  let p := decimalPoint f.1 f.2
  let r := shortestAux m e p 17 1
  let ds := natDigits r.1
  ((ds.reverse.dropWhile (fun c => c = '0')).reverse, (ds.length : Int) + r.2)

/-- The digit at index `i` of `ds`, `0` outside of it. -/
def digitAt (ds : List Char) (i : Int) : Char :=
  if 0 ≤ i then ds.getD i.toNat '0' else '0'

/-- The format `'f'` with shortest digits: `%f` without trailing zeros. -/
def formatF (neg : Bool) (m : Nat) (e : Int) : List Char :=
  let sgn : List Char := if neg then ['-'] else []
  if m = 0 then sgn ++ ['0']
  else
    let r := shortest m e
    let ds := r.1
    let dp := r.2
    let ip : List Char :=
      if 0 < dp then (List.range dp.toNat).map (fun i => digitAt ds i) else ['0']
    let prec := ((ds.length : Int) - dp).toNat
    let fp : List Char := (List.range prec).map (fun i => digitAt ds (dp + i))
    sgn ++ ip ++ (if prec = 0 then [] else '.' :: fp)

/-- The format `'e'` with shortest digits: `d.ddde±dd`. -/
def formatE (neg : Bool) (m : Nat) (e : Int) : List Char :=
  let sgn : List Char := if neg then ['-'] else []
  let r := if m = 0 then (['0'], (1 : Int)) else shortest m e
  let ds := r.1
  let ex : Int := if m = 0 then 0 else r.2 - 1
  let mant : List Char := ds.take 1 ++ (if ds.length ≤ 1 then [] else '.' :: ds.drop 1)
  let exs : List Char := if ex < 0 then ['-'] else ['+']
  let exd : List Char := if ex.natAbs < 10 then '0' :: natDigits ex.natAbs else natDigits ex.natAbs
  sgn ++ mant ++ ['e'] ++ exs ++ exd

/-! ## `encoding/json` on a `[]WeeklyAvg` -/

/-- Comparison `|x| < |y|` of two finite values (`false` otherwise). -/
def magLt : F64 → F64 → Bool
  | .fin _ m e, .fin _ n f =>
    let a := scale2 m 1 e
    let b := scale2 n 1 f
    decide (a.1 * b.2 < b.1 * a.2)
  | _, _ => false

/-- The number text `encoding/json` writes for a finite `float64`: format
`'f'`, or `'e'` below `1e-6` and from `1e21` on, with a two-digit exponent
that starts with `0` shortened to one digit. -/
def jsonFloat (neg : Bool) (m : Nat) (e : Int) : List Char :=
  let small := magLt (.fin false m e) (roundToF64 false 1 (10 ^ 6))
  let big := !magLt (.fin false m e) (roundToF64 false (10 ^ 21) 1)
  if m ≠ 0 ∧ (small ∨ big) then
    let b := formatE neg m e
    let n := b.length
    if 4 ≤ n ∧ b.getD (n - 4) ' ' = 'e' ∧ (b.getD (n - 3) ' ' = '-' ∨ b.getD (n - 3) ' ' = '+')
        ∧ b.getD (n - 2) ' ' = '0' then
      b.take (n - 2) ++ b.drop (n - 1)
    else b
  else formatF neg m e

/-! ## `time.Parse("02/01/2006", value)` and `Time.Unix` -/

/-- Whether `year` is a leap year of the proleptic Gregorian calendar. -/
def isLeap (year : Nat) : Bool :=
  decide (year % 4 = 0 ∧ (year % 100 ≠ 0 ∨ year % 400 = 0))

/-- Number of days of a month. -/
def daysIn (month year : Nat) : Nat :=
  if month = 2 then (if isLeap year then 29 else 28)
  else if month = 4 ∨ month = 6 ∨ month = 9 ∨ month = 11 then 30
  else 31

/-- Days from 1 January 1970 to the given date (year `0` to `9999`). -/
def daysFromCivil (y m d : Nat) : Int :=
  let y1 := y + 400 - (if m ≤ 2 then 1 else 0)
  let era := y1 / 400
  let yoe := y1 % 400
  let mp := (m + 9) % 12
  let doy := (153 * mp + 2) / 5 + d - 1
  let doe := yoe * 365 + yoe / 4 - yoe / 100 + doy
  ((era * 146097 + doe : Nat) : Int) - 719468 - 146097

/-- The layout `02/01/2006` applied to `value`, followed by `Unix()`: two
digits of day, a slash, two digits of month, a slash, four digits of year and
nothing after them; the month must be 1..12 and the day must exist in that
month. The result is the Unix time of midnight UTC of that date, or `none`
when `time.Parse` returns an error. -/
def parseDateUnix (value : List Char) : Option Int :=
  match value with
  | [d1, d2, s1, m1, m2, s2, y1, y2, y3, y4] =>
    if isDigit d1 ∧ isDigit d2 ∧ s1 = '/' ∧ isDigit m1 ∧ isDigit m2 ∧ s2 = '/' ∧
        isDigit y1 ∧ isDigit y2 ∧ isDigit y3 ∧ isDigit y4 then
      let day := digitsVal [d1, d2]
      let month := digitsVal [m1, m2]
      let year := digitsVal [y1, y2, y3, y4]
      if month = 0 ∨ 12 < month then none
      else if day < 1 ∨ daysIn month year < day then none
      else some (daysFromCivil year month day * 86400)
    else none
  | _ => none

/-! ## The data of `main.go` -/

/-- The reporting API's `GoogleTypeDateTime`, with the three `int64` fields
the program reads. -/
structure GoogleTypeDateTime where
  Year : Int
  Month : Int
  Day : Int
  deriving DecidableEq, Repr

/-- The reporting API's `MetricValue`: the metric name and the text of
`DecimalValue.Value`. -/
structure MetricValue where
  Metric : String
  DecimalValue : String
  deriving DecidableEq, Repr

/-- The reporting API's `MetricsRow` (with `StartTime` and every
`DecimalValue` present). -/
structure MetricsRow where
  StartTime : GoogleTypeDateTime
  Metrics : List MetricValue
  deriving DecidableEq, Repr

/-- The struct `WeeklyAvg`. -/
structure WeeklyAvg where
  Week : Int
  Value : F64
  deriving DecidableEq, Repr

/-- The struct `CrashData`. -/
structure CrashData where
  CrashRate : String
  Date : String
  deriving DecidableEq, Repr

/-- A point of `plotter.XYs`. -/
structure XY where
  X : F64
  Y : F64
  deriving DecidableEq, Repr

/-- The Go constant `100` in a `float64` product. -/
def hundred : F64 := F64.ofInt 100

/-- The function `parseDecimal`: `result` starts as zero, `fmt.Sscanf` stores
into it when it succeeds, and its error is dropped. -/
def parseDecimal (value : String) : F64 :=
  match sscanfFloat value with
  | some f => f
  | none => F64.zero

/-- The function `formatCrashData`: both strings start empty and every
metric named `crashRate` overwrites them. -/
def formatCrashData (row : MetricsRow) : CrashData :=
  row.Metrics.foldl
    (fun acc metric =>
      if metric.Metric = "crashRate" then
        { CrashRate :=
            String.mk (fmtFixed2 (F64.mul (parseDecimal metric.DecimalValue) hundred) ++ ['%'])
          Date :=
            String.mk (fmtInt02 row.StartTime.Day ++ ['/'] ++ fmtInt02 row.StartTime.Month ++
              ['/'] ++ fmtInt row.StartTime.Year) }
      else acc)
    { CrashRate := "", Date := "" }

/-! ## HTTP responses -/

/-- The error values whose text the handlers send with `http.Error`. -/
inductive Failure where
  | timeParse (value : String)
  | library (msg : String)
  | jsonUnsupported (v : F64)
  deriving DecidableEq, Repr

/-- What a handler has written when it returns. -/
inductive Body where
  | empty
  | error (f : Failure)
  | png (xys : List XY)
  | text (s : String)
  deriving DecidableEq, Repr

/-- The response the client gets: `net/http` sends status 200 when the handler
never sets one, and `http.Error` replaces the content type. -/
structure Response where
  status : Nat
  contentType : String
  body : Body
  deriving DecidableEq, Repr

/-- How a handler ends: it returns, or it panics. -/
inductive Outcome where
  | panicked
  | returned (r : Response)
  deriving DecidableEq, Repr

/-- The response of a handler that returns without touching the writer. -/
def untouched : Response := { status := 200, contentType := "", body := .empty }

/-- The call `http.Error(w, err.Error(), http.StatusInternalServerError)`. -/
def httpError (f : Failure) : Response :=
  { status := 500, contentType := "text/plain; charset=utf-8", body := .error f }

/-! ## `getWeeklyCrashRate` -/

/-- Everything outside the handler that `getWeeklyCrashRate` depends on: each
field is the result of one call, `none` meaning no error. -/
structure CrashRateEnv where
  tokenSource : Option String
  newService : Option String
  query : Except String (List MetricsRow)
  newLine : List XY → Option String
  save : List XY → Option String
  openFile : Option String
  decode : Option String

/-- The string function `strings.TrimSuffix(s, "%")`. -/
def trimPercent (s : List Char) : List Char :=
  if s.getLast? = some '%' then s.dropLast else s

/-- One pass of the loop that fills `xys`: the date is parsed, a failure
ending the request, and the rate is parsed with its error dropped. -/
def chartPoint (data : CrashData) : Except Failure XY :=
  match parseDateUnix data.Date.data with
  | none => .error (.timeParse data.Date)
  | some unix =>
    .ok { X := F64.ofInt unix, Y := (strconvParseFloat (trimPercent data.CrashRate.data)).val }

/-- The loop that fills `xys`, one point per element in order, stopping at the
first date that does not parse. -/
def chartPoints : List CrashData → Except Failure (List XY)
  | [] => .ok []
  | data :: rest =>
    match chartPoint data with
    | .error f => .error f
    | .ok pt =>
      match chartPoints rest with
      | .error f => .error f
      | .ok pts => .ok (pt :: pts)

/-- The slice `crashDataList` built from the rows of the result. -/
def crashDataList (rows : List MetricsRow) : List CrashData := rows.map formatCrashData

/-- The part of `getWeeklyCrashRate` after a successful query; writing the
image to the response is taken to succeed. -/
def renderCrashRate (env : CrashRateEnv) (rows : List MetricsRow) : Response :=
  match chartPoints (crashDataList rows) with
  | .error f => httpError f
  | .ok xys =>
    match env.newLine xys with
    | some msg => httpError (.library msg)
    | none =>
      match env.save xys with
      | some msg => httpError (.library msg)
      | none =>
        match env.openFile with
        | some msg => httpError (.library msg)
        | none =>
          match env.decode with
          | some msg => httpError (.library msg)
          | none => { status := 200, contentType := "image/png", body := .png xys }

/-- The handler `getWeeklyCrashRate`. -/
def getWeeklyCrashRate (env : CrashRateEnv) : Outcome :=
  match env.tokenSource with
  | some _ => .panicked
  | none =>
    match env.newService with
    | some _ => .returned untouched
    | none =>
      match env.query with
      | .error _ => .returned untouched
      | .ok rows => .returned (renderCrashRate env rows)

/-! ## `getWeeklyAvgComparison` -/

/-- Go's `append` on a slice that may be nil (`none`). -/
def goAppend {α : Type} (s : Option (List α)) (x : α) : Option (List α) :=
  match s with
  | none => some [x]
  | some l => some (l ++ [x])

/-- One `if len(rows) > 0 { ... }` block: every metric of the last row named
`crashRate7dUserWeighted` appends an entry tagged `week`. -/
def appendWindow (week : Int) (rows : List MetricsRow) (weeklyAvg : Option (List WeeklyAvg)) :
    Option (List WeeklyAvg) :=
  match rows.getLast? with
  | none => weeklyAvg
  | some lastRow =>
    lastRow.Metrics.foldl
      (fun acc metricValue =>
        if metricValue.Metric = "crashRate7dUserWeighted" then
          goAppend acc
            { Week := week, Value := F64.mul (parseDecimal metricValue.DecimalValue) hundred }
        else acc)
      weeklyAvg

/-- The slice `weeklyAvg` when both queries have succeeded: it starts nil, the
previous window is handled first with tag 0, the current one with tag 1. -/
def weeklyAvgOf (previous current : List MetricsRow) : Option (List WeeklyAvg) :=
  appendWindow 1 current (appendWindow 0 previous none)

/-- The JSON object of one `WeeklyAvg`, or the value that cannot be encoded. -/
def encodeEntry (wa : WeeklyAvg) : Except Failure (List Char) :=
  match wa.Value with
  | .fin neg m e =>
    .ok ("\x7b\"week\":".data ++ fmtInt wa.Week ++ ",\"value\":".data ++ jsonFloat neg m e ++
      "\x7d".data)
  | v => .error (.jsonUnsupported v)

/-- The JSON objects of the entries, each after the first preceded by a comma. -/
def encodeEntries : List WeeklyAvg → Except Failure (List Char)
  | [] => .ok []
  | wa :: rest =>
    match encodeEntry wa with
    | .error f => .error f
    | .ok o =>
      match encodeEntries rest with
      | .error f => .error f
      | .ok os => .ok (o ++ (if rest = [] then [] else [',']) ++ os)

/-- The JSON text of a `[]WeeklyAvg` as `json.Marshal` produces it: `null` for
the nil slice, an array otherwise. -/
def marshalWeeklyAvg : Option (List WeeklyAvg) → Except Failure String
  | none => .ok "null"
  | some l =>
    match encodeEntries l with
    | .error f => .error f
    | .ok os => .ok (String.mk (['['] ++ os ++ [']']))

/-- The last statements of the handler: the content type is set and the
encoder writes the JSON text followed by a newline, or the encoder fails and
`http.Error` is called. -/
def writeWeeklyAvg (weeklyAvg : Option (List WeeklyAvg)) : Response :=
  match marshalWeeklyAvg weeklyAvg with
  | .error f => httpError f
  | .ok js => { status := 200, contentType := "application/json", body := .text (js ++ "\n") }

/-- Everything outside the handler that `getWeeklyAvgComparison` depends on. -/
structure ComparisonEnv where
  tokenSource : Option String
  newService : Option String
  previousQuery : Except String (List MetricsRow)
  currentQuery : Except String (List MetricsRow)

/-- The handler `getWeeklyAvgComparison`. -/
def getWeeklyAvgComparison (env : ComparisonEnv) : Outcome :=
  match env.tokenSource with
  | some _ => .panicked
  | none =>
    match env.newService with
    | some _ => .panicked
    | none =>
      match env.previousQuery with
      | .error _ => .returned untouched
      | .ok previous =>
        match env.currentQuery with
        | .error _ => .returned untouched
        | .ok current => .returned (writeWeeklyAvg (weeklyAvgOf previous current))

/-! ## Reading the slice `weeklyAvg` -/

/-- The entries of a slice that may be nil. -/
def emitted (weeklyAvg : Option (List WeeklyAvg)) : List WeeklyAvg :=
  match weeklyAvg with
  | none => []
  | some l => l

/-- Whether a metric value is named `crashRate7dUserWeighted`. -/
def isWeighted (mv : MetricValue) : Bool := decide (mv.Metric = "crashRate7dUserWeighted")

/-- The metric values of the last row of a window (none for an empty window). -/
def lastMetrics (rows : List MetricsRow) : List MetricValue :=
  match rows.getLast? with
  | none => []
  | some lastRow => lastRow.Metrics

/-- The float64 product `parseDecimal(value) * 100`. -/
def scaled (value : String) : F64 := F64.mul (parseDecimal value) hundred

/-- The entries a window contributes, read off its last row: one entry per
metric value named `crashRate7dUserWeighted`, in order. -/
def windowEntries (week : Int) (rows : List MetricsRow) : List WeeklyAvg :=
  ((lastMetrics rows).filter isWeighted).map
    (fun mv => { Week := week, Value := scaled mv.DecimalValue })

/-- An environment of the comparison handler in which both queries succeed. -/
def bothSucceed (previous current : List MetricsRow) : ComparisonEnv :=
  { tokenSource := none, newService := none, previousQuery := .ok previous,
    currentQuery := .ok current }

/-- Number of metric values named `crashRate7dUserWeighted` in the last row
of a window (`0` for an empty window). -/
def weightedCount (rows : List MetricsRow) : Nat := ((lastMetrics rows).filter isWeighted).length

/-- A row of the weighted metric set with the given metric values. -/
def weightedRow (values : List String) : MetricsRow :=
  { StartTime := { Year := 2024, Month := 3, Day := 5 },
    Metrics := values.map (fun v => { Metric := "crashRate7dUserWeighted", DecimalValue := v }) }

/-- An environment of the trend handler whose calls all succeed, the query
returning `rows`. -/
def allSucceed (rows : List MetricsRow) : CrashRateEnv :=
  { tokenSource := none, newService := none, query := .ok rows, newLine := fun _ => none,
    save := fun _ => none, openFile := none, decode := none }

/-- An environment of the trend handler whose query fails with `msg`. -/
def queryFails (msg : String) : CrashRateEnv :=
  { tokenSource := none, newService := none, query := .error msg, newLine := fun _ => none,
    save := fun _ => none, openFile := none, decode := none }

/-- Whether a metric value is named `crashRate`. -/
def isCrashRate (mv : MetricValue) : Bool := decide (mv.Metric = "crashRate")

/-- The decimal value of the last metric of the row named `crashRate`. -/
def crashRateValue (row : MetricsRow) : Option String :=
  ((row.Metrics.filter isCrashRate).getLast?).map (fun mv => mv.DecimalValue)

/-- The display string of a decimal value: `parseDecimal(value) * 100` printed
with `%.2f%%`. -/
def displayRate (value : String) : String := String.mk (fmtFixed2 (scaled value) ++ ['%'])

/-- The date string `%02d/%02d/%d` of day, month and year. -/
def dateString (st : GoogleTypeDateTime) : String :=
  String.mk (fmtInt02 st.Day ++ ['/'] ++ fmtInt02 st.Month ++ ['/'] ++ fmtInt st.Year)

/-- A number below 100 written with two digits, a leading zero if needed. -/
def pad2 (n : Nat) : List Char := if n < 10 then ['0', digitChar n] else natDigits n

/-- Whether month and day name a day of the calendar in the given year. -/
def realDate (st : GoogleTypeDateTime) : Bool :=
  decide (0 ≤ st.Year ∧ 1 ≤ st.Month ∧ st.Month ≤ 12 ∧ 1 ≤ st.Day ∧
    st.Day.natAbs ≤ daysIn st.Month.natAbs st.Year.natAbs)

/-- Whether the year is written with four digits. -/
def fourDigitYear (st : GoogleTypeDateTime) : Bool := decide (1000 ≤ st.Year ∧ st.Year ≤ 9999)

/-- Unix time of midnight UTC of the start date. -/
def unixOf (st : GoogleTypeDateTime) : Int :=
  daysFromCivil st.Year.natAbs st.Month.natAbs st.Day.natAbs * 86400

/-- The value line 114 of `main.go` parses out of a display string. -/
def plottedOf (display : String) : F64 := (strconvParseFloat (trimPercent display.data)).val

/-- The chart point of a row: the Unix time of its start date, and the value
parsed back from the display string of its `crashRate` metric. -/
def pointOf (row : MetricsRow) : XY :=
  { X := F64.ofInt (unixOf row.StartTime), Y := plottedOf (formatCrashData row).CrashRate }

/-- A row of the crash rate metric set with one `crashRate` value. -/
def crashRow (year month day : Int) (value : String) : MetricsRow :=
  { StartTime := { Year := year, Month := month, Day := day },
    Metrics := [{ Metric := "crashRate", DecimalValue := value }] }

/-- The number of hundredths `%.2f` prints for the magnitude `m * 2^e`: the
exact value times 100, rounded to the nearest integer, ties to even. -/
def shownHundredths (m : Nat) (e : Int) : Nat :=
  roundHalfEven (scale2 (m * 100) 1 e).1 (scale2 (m * 100) 1 e).2

/-- The number of hundredths of `m * 2^e` when the digits after the second
decimal are cut off. -/
def cutHundredths (m : Nat) (e : Int) : Nat :=
  (scale2 (m * 100) 1 e).1 / (scale2 (m * 100) 1 e).2

/-- The sign that `%.2f` prints. -/
def signChars (neg : Bool) : List Char := if neg then ['-'] else []

/-- The JSON object of an entry with a finite value, as `encodeEntry` writes
it. -/
def entryText (week : Int) (neg : Bool) (m : Nat) (e : Int) : List Char :=
  "\x7b\"week\":".data ++ fmtInt week ++ ",\"value\":".data ++ jsonFloat neg m e ++ "\x7d".data

/-- The response that carries a JSON text: status 200, content type
`application/json`, the text and a newline. -/
def jsonResponse (text : List Char) : Response :=
  { status := 200, contentType := "application/json", body := .text (String.mk text ++ "\n") }

/-- Whether the row has a metric named `crashRate`. -/
def hasCrashRate (row : MetricsRow) : Bool := row.Metrics.any isCrashRate

/-! ## Lemmas on `appendWindow` -/

theorem foldl_goAppend (week : Int) (ms : List MetricValue) (acc : Option (List WeeklyAvg)) :
    ms.foldl
        (fun acc metricValue =>
          if metricValue.Metric = "crashRate7dUserWeighted" then
            goAppend acc
              { Week := week, Value := F64.mul (parseDecimal metricValue.DecimalValue) hundred }
          else acc)
        acc
      = if (ms.filter isWeighted) = [] then acc
        else some (emitted acc ++ (ms.filter isWeighted).map
          (fun mv => { Week := week, Value := scaled mv.DecimalValue })) := by
  induction ms generalizing acc with
  | nil => simp
  | cons mv rest ih =>
    rw [List.foldl_cons, ih]
    by_cases h : mv.Metric = "crashRate7dUserWeighted"
    · have hw : isWeighted mv = true := by simp [isWeighted, h]
      cases acc <;> simp [h, hw, List.filter_cons, goAppend, emitted, scaled]
    · have hw : isWeighted mv = false := by simp [isWeighted, h]
      simp [h, hw, List.filter_cons]

theorem appendWindow_eq (week : Int) (rows : List MetricsRow) (acc : Option (List WeeklyAvg)) :
    appendWindow week rows acc
      = if windowEntries week rows = [] then acc
        else some (emitted acc ++ windowEntries week rows) := by
  unfold appendWindow windowEntries lastMetrics
  cases h : rows.getLast? with
  | none => simp
  | some lastRow => simp only [foldl_goAppend, List.map_eq_nil_iff]

theorem emitted_appendWindow (week : Int) (rows : List MetricsRow)
    (acc : Option (List WeeklyAvg)) :
    emitted (appendWindow week rows acc) = emitted acc ++ windowEntries week rows := by
  rw [appendWindow_eq]
  by_cases h : windowEntries week rows = []
  · simp [h]
  · simp [h, emitted]

theorem emitted_weeklyAvgOf (previous current : List MetricsRow) :
    emitted (weeklyAvgOf previous current)
      = windowEntries 0 previous ++ windowEntries 1 current := by
  unfold weeklyAvgOf
  rw [emitted_appendWindow, emitted_appendWindow]
  simp [emitted]

theorem windowEntries_nil (week : Int) : windowEntries week [] = [] := by
  simp [windowEntries, lastMetrics]

theorem windowEntries_snoc (week : Int) (init : List MetricsRow) (lastRow : MetricsRow) :
    windowEntries week (init ++ [lastRow])
      = (lastRow.Metrics.filter isWeighted).map
          (fun mv => { Week := week, Value := scaled mv.DecimalValue }) := by
  simp [windowEntries, lastMetrics]

/-! ## Lemmas on decimal digits -/

theorem isDigit_digitChar (d : Nat) (h : d < 10) : isDigit (digitChar d) = true := by
  interval_cases d <;> rfl

theorem digitVal_digitChar (d : Nat) (h : d < 10) : digitVal (digitChar d) = d := by
  interval_cases d <;> rfl

theorem digitsVal_append_singleton (ds : List Char) (c : Char) :
    digitsVal (ds ++ [c]) = 10 * digitsVal ds + digitVal c := by
  simp [digitsVal, List.foldl_append]

theorem digitsVal_foldl (ds : List Char) (a : Nat) :
    ds.foldl (fun a c => 10 * a + digitVal c) a = a * 10 ^ ds.length + digitsVal ds := by
  induction ds generalizing a with
  | nil => simp [digitsVal]
  | cons c rest ih =>
    simp only [List.foldl_cons, digitsVal, List.length_cons]
    rw [ih, ih (10 * 0 + digitVal c)]
    ring

theorem digitsVal_append (xs ys : List Char) :
    digitsVal (xs ++ ys) = digitsVal xs * 10 ^ ys.length + digitsVal ys := by
  unfold digitsVal
  rw [List.foldl_append, digitsVal_foldl]
  rfl

theorem natDigitsAux_spec (fuel n : Nat) (acc : List Char) (h : n < fuel) :
    ∃ ds, natDigitsAux fuel n acc = ds ++ acc ∧ ds ≠ [] ∧ (∀ c ∈ ds, isDigit c = true)
      ∧ digitsVal ds = n := by
  induction fuel generalizing n acc with
  | zero => omega
  | succ fuel ih =>
    unfold natDigitsAux
    by_cases h10 : n < 10
    · refine ⟨[digitChar n], by simp [h10], by simp, ?_, ?_⟩
      · intro c hc
        rw [List.mem_singleton] at hc
        rw [hc]
        exact isDigit_digitChar n h10
      · simp [digitsVal, digitVal_digitChar n h10]
    · have hlt : n / 10 < fuel := by omega
      obtain ⟨ds, hds, _, hall, hval⟩ := ih (n / 10) (digitChar (n % 10) :: acc) hlt
      have hmod : n % 10 < 10 := Nat.mod_lt _ (by decide)
      refine ⟨ds ++ [digitChar (n % 10)], by simp [h10, hds], by simp, ?_, ?_⟩
      · intro c hc
        rw [List.mem_append, List.mem_singleton] at hc
        rcases hc with hc | hc
        · exact hall c hc
        · rw [hc]
          exact isDigit_digitChar _ hmod
      · rw [digitsVal_append_singleton, hval, digitVal_digitChar _ hmod]
        omega

theorem natDigits_spec (n : Nat) :
    natDigits n ≠ [] ∧ (∀ c ∈ natDigits n, isDigit c = true) ∧ digitsVal (natDigits n) = n := by
  obtain ⟨ds, hds, hne, hall, hval⟩ := natDigitsAux_spec (n + 1) n [] (Nat.lt_succ_self n)
  have : natDigits n = ds := by simpa [natDigits] using hds
  rw [this]
  exact ⟨hne, hall, hval⟩

theorem twoDigits_spec (h : Nat) :
    (∀ c ∈ twoDigits h, isDigit c = true) ∧ digitsVal (twoDigits h) = h % 100 := by
  have h1 : h / 10 % 10 < 10 := Nat.mod_lt _ (by decide)
  have h2 : h % 10 < 10 := Nat.mod_lt _ (by decide)
  constructor
  · intro c hc
    simp only [twoDigits, List.mem_cons, List.mem_singleton, List.mem_nil_iff, or_false] at hc
    rcases hc with hc | hc
    · rw [hc]; exact isDigit_digitChar _ h1
    · rw [hc]; exact isDigit_digitChar _ h2
  · simp only [twoDigits, digitsVal, List.foldl_cons, List.foldl_nil, digitVal_digitChar _ h1,
      digitVal_digitChar _ h2]
    omega

theorem natDigits_lt_ten (n : Nat) (h : n < 10) : natDigits n = [digitChar n] := by
  simp [natDigits, natDigitsAux, h]

theorem natDigitsAux_step (fuel n : Nat) (acc : List Char) (h : 10 ≤ n) :
    natDigitsAux (fuel + 1) n acc = natDigitsAux fuel (n / 10) (digitChar (n % 10) :: acc) := by
  simp [natDigitsAux, Nat.not_lt.mpr h]

theorem natDigitsAux_last (fuel n : Nat) (acc : List Char) (h : n < 10) :
    natDigitsAux (fuel + 1) n acc = digitChar n :: acc := by
  simp [natDigitsAux, h]

theorem natDigits_two (n : Nat) (h1 : 10 ≤ n) (h2 : n < 100) :
    natDigits n = [digitChar (n / 10), digitChar (n % 10)] := by
  obtain ⟨k, rfl⟩ : ∃ k, n = k + 1 := ⟨n - 1, by omega⟩
  unfold natDigits
  rw [natDigitsAux_step _ _ _ h1, natDigitsAux_last _ _ _ (by omega)]

theorem natDigits_four (n : Nat) (h1 : 1000 ≤ n) (h2 : n < 10000) :
    natDigits n = [digitChar (n / 1000), digitChar (n / 100 % 10), digitChar (n / 10 % 10),
      digitChar (n % 10)] := by
  obtain ⟨k, rfl⟩ : ∃ k, n = k + 4 := ⟨n - 4, by omega⟩
  unfold natDigits
  rw [natDigitsAux_step _ _ _ (by omega), natDigitsAux_step _ _ _ (by omega),
    natDigitsAux_step _ _ _ (by omega), natDigitsAux_last _ _ _ (by omega)]
  have e1 : (k + 4) / 10 / 10 / 10 = (k + 4) / 1000 := by omega
  have e2 : (k + 4) / 10 / 10 % 10 = (k + 4) / 100 % 10 := by omega
  rw [e1, e2]

/-! ## Lemmas on `formatCrashData` and the date string -/

theorem formatCrashData_foldl (st : GoogleTypeDateTime) (ms : List MetricValue) (acc : CrashData) :
    ms.foldl
        (fun acc metric =>
          if metric.Metric = "crashRate" then
            { CrashRate :=
                String.mk (fmtFixed2 (F64.mul (parseDecimal metric.DecimalValue) hundred) ++ ['%'])
              Date :=
                String.mk (fmtInt02 st.Day ++ ['/'] ++ fmtInt02 st.Month ++ ['/'] ++ fmtInt st.Year) }
          else acc)
        acc
      = match ((ms.filter isCrashRate).getLast?).map (fun mv => mv.DecimalValue) with
        | none => acc
        | some v => { CrashRate := displayRate v, Date := dateString st } := by
  induction ms generalizing acc with
  | nil => simp
  | cons mv rest ih =>
    rw [List.foldl_cons, ih]
    by_cases h : mv.Metric = "crashRate"
    · have hw : isCrashRate mv = true := by simp [isCrashRate, h]
      rw [List.filter_cons_of_pos hw, List.getLast?_cons]
      cases hr : (rest.filter isCrashRate).getLast? <;>
        simp [h, displayRate, dateString, scaled]
    · have hw : ¬ (isCrashRate mv = true) := by simp [isCrashRate, h]
      rw [List.filter_cons_of_neg hw]
      simp [h]

theorem formatCrashData_eq (row : MetricsRow) :
    formatCrashData row
      = match crashRateValue row with
        | none => { CrashRate := "", Date := "" }
        | some v => { CrashRate := displayRate v, Date := dateString row.StartTime } := by
  unfold formatCrashData crashRateValue
  exact formatCrashData_foldl row.StartTime row.Metrics _

theorem crashRateValue_of_mem (row : MetricsRow)
    (h : ∃ mv ∈ row.Metrics, mv.Metric = "crashRate") : ∃ v, crashRateValue row = some v := by
  obtain ⟨mv, hmem, hname⟩ := h
  have hf : mv ∈ row.Metrics.filter isCrashRate := by
    simp [List.mem_filter, hmem, isCrashRate, hname]
  have hne : row.Metrics.filter isCrashRate ≠ [] := List.ne_nil_of_mem hf
  unfold crashRateValue
  cases hl : (row.Metrics.filter isCrashRate).getLast? with
  | none => exact absurd (List.getLast?_eq_none_iff.mp hl) hne
  | some x => exact ⟨x.DecimalValue, rfl⟩

theorem digitsVal_two (a b : Nat) (ha : a < 10) (hb : b < 10) :
    digitsVal [digitChar a, digitChar b] = 10 * a + b := by
  simp [digitsVal, digitVal_digitChar _ ha, digitVal_digitChar _ hb]

theorem digitsVal_four (a b c d : Nat) (ha : a < 10) (hb : b < 10) (hc : c < 10) (hd : d < 10) :
    digitsVal [digitChar a, digitChar b, digitChar c, digitChar d]
      = 10 * (10 * (10 * a + b) + c) + d := by
  simp [digitsVal, digitVal_digitChar _ ha, digitVal_digitChar _ hb, digitVal_digitChar _ hc,
    digitVal_digitChar _ hd]

theorem pad2_eq (n : Nat) (h : n < 100) : pad2 n = [digitChar (n / 10), digitChar (n % 10)] := by
  unfold pad2
  by_cases h10 : n < 10
  · have e1 : n / 10 = 0 := by omega
    have e2 : n % 10 = n := by omega
    rw [if_pos h10, e1, e2]
    rfl
  · rw [if_neg h10, natDigits_two n (by omega) h]

theorem fmtInt02_natCast (n : Nat) : fmtInt02 (n : Int) = pad2 n := by
  unfold fmtInt02 pad2
  have h0 : ¬ ((n : Int) < 0) := by omega
  rw [if_neg h0]
  by_cases h10 : n < 10
  · have : (n : Int) < 10 := by omega
    rw [if_pos this, if_pos h10, Int.natAbs_ofNat, natDigits_lt_ten n h10]
  · have : ¬ ((n : Int) < 10) := by omega
    rw [if_neg this, if_neg h10, Int.natAbs_ofNat]

theorem fmtInt_natCast (n : Nat) : fmtInt (n : Int) = natDigits n := by
  unfold fmtInt
  have h0 : ¬ ((n : Int) < 0) := by omega
  rw [if_neg h0, Int.natAbs_ofNat]
  rfl

theorem daysIn_le (m y : Nat) : daysIn m y ≤ 31 := by
  unfold daysIn
  split_ifs <;> omega

theorem parseDateUnix_format (y m d : Nat) (hy1 : 1000 ≤ y) (hy2 : y ≤ 9999) (hm1 : 1 ≤ m)
    (hm2 : m ≤ 12) (hd1 : 1 ≤ d) (hd2 : d ≤ daysIn m y) :
    parseDateUnix (pad2 d ++ ['/'] ++ pad2 m ++ ['/'] ++ natDigits y)
      = some (daysFromCivil y m d * 86400) := by
  have hd3 : d ≤ 31 := le_trans hd2 (daysIn_le m y)
  rw [pad2_eq d (by omega), pad2_eq m (by omega), natDigits_four y hy1 (by omega)]
  have a1 : d / 10 < 10 := by omega
  have a2 : d % 10 < 10 := by omega
  have b1 : m / 10 < 10 := by omega
  have b2 : m % 10 < 10 := by omega
  have c1 : y / 1000 < 10 := by omega
  have c2 : y / 100 % 10 < 10 := by omega
  have c3 : y / 10 % 10 < 10 := by omega
  have c4 : y % 10 < 10 := by omega
  have vd : digitsVal [digitChar (d / 10), digitChar (d % 10)] = d := by
    rw [digitsVal_two _ _ a1 a2]; omega
  have vm : digitsVal [digitChar (m / 10), digitChar (m % 10)] = m := by
    rw [digitsVal_two _ _ b1 b2]; omega
  have vy : digitsVal [digitChar (y / 1000), digitChar (y / 100 % 10), digitChar (y / 10 % 10),
      digitChar (y % 10)] = y := by
    rw [digitsVal_four _ _ _ _ c1 c2 c3 c4]; omega
  have hmm : ¬ (m = 0 ∨ 12 < m) := by omega
  have hdd : ¬ (d < 1 ∨ daysIn m y < d) := by omega
  simp only [List.cons_append, List.nil_append, parseDateUnix, isDigit_digitChar _ a1,
    isDigit_digitChar _ a2, isDigit_digitChar _ b1, isDigit_digitChar _ b2,
    isDigit_digitChar _ c1, isDigit_digitChar _ c2, isDigit_digitChar _ c3,
    isDigit_digitChar _ c4, vd, vm, vy, and_self, if_true, if_neg hmm, if_neg hdd]

theorem dateString_natCast (y m d : Nat) :
    dateString { Year := y, Month := m, Day := d }
      = String.mk (pad2 d ++ ['/'] ++ pad2 m ++ ['/'] ++ natDigits y) := by
  simp only [dateString, fmtInt02_natCast, fmtInt_natCast]

theorem parseDateUnix_dateString (st : GoogleTypeDateTime) (hreal : realDate st = true)
    (hyear : fourDigitYear st = true) :
    parseDateUnix (dateString st).data = some (unixOf st) := by
  obtain ⟨y, m, d⟩ := st
  simp only [realDate, fourDigitYear, decide_eq_true_eq] at hreal hyear
  obtain ⟨hy0, hm1, hm2, hd1, hd2⟩ := hreal
  obtain ⟨hy1, hy2⟩ := hyear
  obtain ⟨yn, rfl⟩ := Int.eq_ofNat_of_zero_le hy0
  obtain ⟨mn, rfl⟩ := Int.eq_ofNat_of_zero_le (by omega : (0 : Int) ≤ m)
  obtain ⟨dn, rfl⟩ := Int.eq_ofNat_of_zero_le (by omega : (0 : Int) ≤ d)
  simp only [Int.natAbs_ofNat] at hd2
  rw [dateString_natCast]
  simp only [unixOf, Int.natAbs_ofNat]
  exact parseDateUnix_format yn mn dn (by omega) (by omega) (by omega) (by omega) (by omega) hd2

theorem trimPercent_append (s : List Char) : trimPercent (s ++ ['%']) = s := by
  simp [trimPercent]

/-! ## Lemmas on the loop that fills `xys` -/

theorem chartPoint_of_valid (row : MetricsRow)
    (hcr : ∃ mv ∈ row.Metrics, mv.Metric = "crashRate")
    (hreal : realDate row.StartTime = true) (hyear : fourDigitYear row.StartTime = true) :
    chartPoint (formatCrashData row) = .ok (pointOf row) := by
  obtain ⟨v, hv⟩ := crashRateValue_of_mem row hcr
  have hdate : (formatCrashData row).Date = dateString row.StartTime := by
    rw [formatCrashData_eq, hv]
  unfold chartPoint
  rw [hdate, parseDateUnix_dateString row.StartTime hreal hyear]
  rfl

theorem chartPoints_of_valid (rows : List MetricsRow)
    (h : ∀ row ∈ rows, chartPoint (formatCrashData row) = .ok (pointOf row)) :
    chartPoints (crashDataList rows) = .ok (rows.map pointOf) := by
  induction rows with
  | nil => rfl
  | cons row rest ih =>
    have h1 := h row (List.mem_cons_self _ _)
    have h2 := ih (fun r hr => h r (List.mem_cons_of_mem _ hr))
    unfold crashDataList at h2 ⊢
    simp only [List.map_cons, chartPoints, h1, h2]

theorem renderCrashRate_allSucceed (rows : List MetricsRow) (xys : List XY)
    (h : chartPoints (crashDataList rows) = .ok xys) :
    getWeeklyCrashRate (allSucceed rows)
      = .returned { status := 200, contentType := "image/png", body := .png xys } := by
  simp only [getWeeklyCrashRate, allSucceed, renderCrashRate, h]

/-! ## Lemmas on reading back a printed number -/

theorem isDigit_ne (c d : Char) (h : isDigit c = true) (hd : isDigit d = false) : c ≠ d := by
  intro hcd
  rw [hcd, hd] at h
  exact Bool.noConfusion h

theorem plainChar_of_isDigit (c : Char) (h : isDigit c = true) : plainChar c = true := by
  have h1 : c ≠ '_' := isDigit_ne c '_' h rfl
  have h2 : c ≠ 'x' := isDigit_ne c 'x' h rfl
  have h3 : c ≠ 'X' := isDigit_ne c 'X' h rfl
  simp [plainChar, h1, h2, h3]

theorem lowerChar_digit (c : Char) (h : isDigit c = true) : lowerChar c = c := by
  unfold lowerChar
  simp only [isDigit, decide_eq_true_eq] at h
  rw [if_neg (by omega)]

theorem takeWhile_digits_append (ip rest : List Char) (h : ∀ c ∈ ip, isDigit c = true) :
    (ip ++ rest).takeWhile isDigit = ip ++ rest.takeWhile isDigit := by
  induction ip with
  | nil => rfl
  | cons c cs ih =>
    have hc := h c (List.mem_cons_self _ _)
    simp only [List.cons_append, List.takeWhile_cons, hc, if_true]
    rw [ih (fun x hx => h x (List.mem_cons_of_mem _ hx))]

theorem dropWhile_digits_append (ip rest : List Char) (h : ∀ c ∈ ip, isDigit c = true) :
    (ip ++ rest).dropWhile isDigit = rest.dropWhile isDigit := by
  induction ip with
  | nil => rfl
  | cons c cs ih =>
    have hc := h c (List.mem_cons_self _ _)
    simp only [List.cons_append, List.dropWhile_cons, hc, if_true]
    rw [ih (fun x hx => h x (List.mem_cons_of_mem _ hx))]

theorem takeWhile_digits_self (fp : List Char) (h : ∀ c ∈ fp, isDigit c = true) :
    fp.takeWhile isDigit = fp := by
  have := takeWhile_digits_append fp [] h
  simpa using this

theorem dropWhile_digits_self (fp : List Char) (h : ∀ c ∈ fp, isDigit c = true) :
    fp.dropWhile isDigit = [] := by
  have := dropWhile_digits_append fp [] h
  simpa using this

theorem readDecimal_body (neg : Bool) (ip fp : List Char) (hne : ip ≠ [])
    (hip : ∀ c ∈ ip, isDigit c = true) (hfp : ∀ c ∈ fp, isDigit c = true) :
    readDecimal ((if neg then ['-'] else []) ++ ip ++ '.' :: fp)
      = some (neg, digitsVal (ip ++ fp), -(fp.length : Int)) := by
  obtain ⟨c, cs, rfl⟩ := List.exists_cons_of_ne_nil hne
  have hc := hip c (List.mem_cons_self _ _)
  have hcm : c ≠ '-' := isDigit_ne c '-' hc rfl
  have hcp : c ≠ '+' := isDigit_ne c '+' hc rfl
  have htake : ((c :: cs) ++ '.' :: fp).takeWhile isDigit = c :: cs := by
    rw [takeWhile_digits_append _ _ hip]
    simp [List.takeWhile_cons, show isDigit '.' = false from rfl]
  have hdrop : ((c :: cs) ++ '.' :: fp).dropWhile isDigit = '.' :: fp := by
    rw [dropWhile_digits_append _ _ hip]
    simp [List.dropWhile_cons, show isDigit '.' = false from rfl]
  cases neg with
  | false =>
    simp only [Bool.false_eq_true, if_false, List.nil_append]
    unfold readDecimal
    simp only [List.cons_append, List.head?_cons, Option.some.injEq, hcm, hcp, or_self, if_false]
    rw [← List.cons_append, htake, hdrop]
    simp [takeWhile_digits_self fp hfp, dropWhile_digits_self fp hfp, readExponent]
  | true =>
    simp only [if_true]
    unfold readDecimal
    simp only [List.cons_append, List.nil_append, List.head?_cons, true_or, if_true, List.tail_cons]
    rw [← List.cons_append, htake, hdrop]
    simp [takeWhile_digits_self fp hfp, dropWhile_digits_self fp hfp, readExponent]

theorem parseSpecial_printed (neg : Bool) (ip rest : List Char) (hne : ip ≠ [])
    (hip : ∀ c ∈ ip, isDigit c = true) :
    parseSpecial ((if neg then ['-'] else []) ++ ip ++ rest) = none := by
  obtain ⟨c, cs, rfl⟩ := List.exists_cons_of_ne_nil hne
  have hc := hip c (List.mem_cons_self _ _)
  have hl := lowerChar_digit c hc
  have h1 : c ≠ 'n' := isDigit_ne c 'n' hc rfl
  have h2 : c ≠ 'i' := isDigit_ne c 'i' hc rfl
  have h3 : c ≠ '+' := isDigit_ne c '+' hc rfl
  have h4 : c ≠ '-' := isDigit_ne c '-' hc rfl
  cases neg with
  | false => simp [parseSpecial, hl, h1, h2, h3, h4]
  | true =>
    have hm : lowerChar '-' = '-' := rfl
    simp [parseSpecial, hl, hm, h1, h2, h3, h4]

theorem fmtFixed2_fin (neg : Bool) (m : Nat) (e : Int) :
    fmtFixed2 (.fin neg m e)
      = signChars neg ++ natDigits (shownHundredths m e / 100) ++ ['.']
          ++ twoDigits (shownHundredths m e) := rfl

theorem strconvParseFloat_printed (neg : Bool) (h : Nat) :
    (strconvParseFloat (signChars neg ++ natDigits (h / 100) ++ ['.'] ++ twoDigits h)).val
      = roundToF64 neg h 100 := by
  obtain ⟨hne, hall, hval⟩ := natDigits_spec (h / 100)
  obtain ⟨htwo, htwoval⟩ := twoDigits_spec h
  have e1 : signChars neg ++ natDigits (h / 100) ++ ['.'] ++ twoDigits h
      = (if neg then ['-'] else []) ++ natDigits (h / 100) ++ '.' :: twoDigits h := by
    simp [signChars]
  have e2 : signChars neg ++ natDigits (h / 100) ++ ['.'] ++ twoDigits h
      = (if neg then ['-'] else []) ++ natDigits (h / 100) ++ ('.' :: twoDigits h) := by
    simp [signChars]
  have hs : parseSpecial (signChars neg ++ natDigits (h / 100) ++ ['.'] ++ twoDigits h) = none := by
    rw [e2]
    exact parseSpecial_printed neg _ _ hne hall
  have hr : readDecimal (signChars neg ++ natDigits (h / 100) ++ ['.'] ++ twoDigits h)
      = some (neg, h, -2) := by
    rw [e1, readDecimal_body neg _ _ hne hall htwo, digitsVal_append, hval, htwoval]
    have hl : (twoDigits h).length = 2 := rfl
    rw [hl]
    have : h / 100 * 10 ^ 2 + h % 100 = h := by omega
    rw [this]
    rfl
  have hplain : (signChars neg ++ natDigits (h / 100) ++ ['.'] ++ twoDigits h).all plainChar
      = true := by
    rw [List.all_eq_true]
    intro c hc
    simp only [List.mem_append, List.mem_singleton] at hc
    rcases hc with ((hc | hc) | hc) | hc
    · cases neg with
      | false => simp [signChars] at hc
      | true =>
        simp only [signChars, if_true, List.mem_singleton] at hc
        rw [hc]
        rfl
    · exact plainChar_of_isDigit c (hall c hc)
    · rw [hc]
      rfl
    · exact plainChar_of_isDigit c (htwo c hc)
  unfold strconvParseFloat
  rw [hs]
  simp only [hplain, if_true, hr, decimalOut]
  rfl

theorem plottedOf_display (neg : Bool) (m : Nat) (e : Int) :
    plottedOf (String.mk (fmtFixed2 (.fin neg m e) ++ ['%']))
      = roundToF64 neg (shownHundredths m e) 100 := by
  unfold plottedOf
  rw [trimPercent_append, fmtFixed2_fin, strconvParseFloat_printed]

theorem scale2_den_pos (n : Nat) (k : Int) : 0 < (scale2 n 1 k).2 := by
  unfold scale2
  split_ifs
  · exact Nat.one_pos
  · simp

theorem roundHalfEven_near (a b : Nat) (hb : 0 < b) :
    2 * a ≤ (2 * roundHalfEven a b + 1) * b ∧ 2 * roundHalfEven a b * b ≤ 2 * a + b := by
  have hdm := Nat.div_add_mod a b
  have hlt := Nat.mod_lt a hb
  have e1 : 2 * (a / b) * b = 2 * (b * (a / b)) := by ring
  have e2 : (2 * (a / b) + 1) * b = 2 * (b * (a / b)) + b := by ring
  have e3 : (2 * (a / b + 1) + 1) * b = 2 * (b * (a / b)) + 3 * b := by ring
  have e4 : 2 * (a / b + 1) * b = 2 * (b * (a / b)) + 2 * b := by ring
  unfold roundHalfEven
  simp only []
  split_ifs with hc
  · rw [e3, e4]
    generalize b * (a / b) = p at *
    omega
  · rw [e1, e2]
    generalize b * (a / b) = p at *
    omega

theorem roundHalfEven_up (a b : Nat) (h : b < 2 * (a % b)) : roundHalfEven a b = a / b + 1 := by
  unfold roundHalfEven
  simp only []
  rw [if_pos (Or.inl h)]

theorem roundHalfEven_down (a b : Nat) (h : 2 * (a % b) < b) : roundHalfEven a b = a / b := by
  unfold roundHalfEven
  simp only []
  rw [if_neg (by omega)]

theorem roundHalfEven_tie (a b : Nat) (h : 2 * (a % b) = b) : roundHalfEven a b % 2 = 0 := by
  unfold roundHalfEven
  simp only []
  split_ifs with hc
  · rcases hc with hc | ⟨_, hc⟩
    · omega
    · omega
  · have : ¬ (a / b % 2 = 1) := fun h1 => hc (Or.inr ⟨h, h1⟩)
    omega

/-! ## Lemmas on the encoder -/

theorem encodeEntry_fin (week : Int) (v : F64) (neg : Bool) (m : Nat) (e : Int)
    (h : v = .fin neg m e) :
    encodeEntry { Week := week, Value := v } = .ok (entryText week neg m e) := by
  subst h
  rfl

theorem encodeEntry_nonfinite (week : Int) (v : F64) (h : v.isFinite = false) :
    encodeEntry { Week := week, Value := v } = .error (.jsonUnsupported v) := by
  cases v with
  | nan => rfl
  | inf s => rfl
  | fin s m e => exact Bool.noConfusion h

theorem comparison_response (pre cur : List MetricsRow) (w : Option (List WeeklyAvg))
    (h : weeklyAvgOf pre cur = w) :
    getWeeklyAvgComparison (bothSucceed pre cur) = .returned (writeWeeklyAvg w) := by
  simp only [getWeeklyAvgComparison, bothSucceed, h]

theorem crashRateValue_none (row : MetricsRow) (h : hasCrashRate row = false) :
    crashRateValue row = none := by
  unfold crashRateValue
  have hnil : row.Metrics.filter isCrashRate = [] := by
    rw [List.filter_eq_nil_iff]
    intro mv hmv hc
    have : hasCrashRate row = true := by
      unfold hasCrashRate
      rw [List.any_eq_true]
      exact ⟨mv, hmv, hc⟩
    rw [h] at this
    exact Bool.noConfusion this
  rw [hnil]
  rfl

theorem crashRateValue_some (row : MetricsRow) (h : hasCrashRate row = true) :
    ∃ v, crashRateValue row = some v := by
  unfold hasCrashRate at h
  rw [List.any_eq_true] at h
  obtain ⟨mv, hmv, hc⟩ := h
  exact crashRateValue_of_mem row ⟨mv, hmv, by simpa [isCrashRate] using hc⟩

theorem fmtInt02_neg (n : Nat) : fmtInt02 (-((n : Int) + 1)) = '-' :: natDigits (n + 1) := by
  unfold fmtInt02
  have h0 : -((n : Int) + 1) < 0 := by omega
  have h1 : (-((n : Int) + 1)).natAbs = n + 1 := by omega
  rw [if_pos h0, h1]

theorem fmtInt_neg (n : Nat) : fmtInt (-((n : Int) + 1)) = '-' :: natDigits (n + 1) := by
  unfold fmtInt
  have h0 : -((n : Int) + 1) < 0 := by omega
  have h1 : (-((n : Int) + 1)).natAbs = n + 1 := by omega
  rw [if_pos h0, h1]
  rfl

theorem fmtInt02_large (n : Nat) (h : 100 ≤ n) : fmtInt02 (n : Int) = natDigits n := by
  rw [fmtInt02_natCast]
  unfold pad2
  rw [if_neg (by omega)]

/-! ## Claims on `getWeeklyAvgComparison` -/

set_option maxRecDepth 100000
set_option exponentiation.threshold 4000

/-- C1, counterexample: with both windows empty the slice is still nil, so the
encoder writes `null` and a newline, and the body is not the empty array. -/
theorem comparison_empty_body_is_not_array :
    getWeeklyAvgComparison (bothSucceed [] [])
        = .returned { status := 200, contentType := "application/json", body := .text "null\n" }
      ∧ getWeeklyAvgComparison (bothSucceed [] [])
        ≠ .returned { status := 200, contentType := "application/json", body := .text "[]\n" }
      ∧ marshalWeeklyAvg (weeklyAvgOf [] []) ≠ .ok "[]" := by
  decide

/-- C1, amended: whenever both queries succeed and each returns zero rows, the
handler answers with status 200, content type `application/json`, and the body
`null` followed by a newline. -/
theorem comparison_both_empty_null (env : ComparisonEnv)
    (htok : env.tokenSource = none) (hsvc : env.newService = none)
    (hprev : env.previousQuery = .ok []) (hcur : env.currentQuery = .ok []) :
    getWeeklyAvgComparison env
      = .returned { status := 200, contentType := "application/json", body := .text "null\n" } := by
  unfold getWeeklyAvgComparison
  rw [htok, hsvc, hprev, hcur]
  decide

/-- C1, witness: the environment in which both queries return zero rows. -/
theorem comparison_both_empty_null_witness :
    getWeeklyAvgComparison (bothSucceed [] [])
      = .returned { status := 200, contentType := "application/json", body := .text "null\n" } :=
  comparison_both_empty_null (bothSucceed [] []) rfl rfl rfl rfl

/-- C4, counterexample: the last row of the previous window carries the
metric once, with the decimal value `1e307`; its product with 100 is not a
finite float64, the encoder fails, and the response is status 500 with the
error text instead of a list of two entries. -/
theorem comparison_nonfinite_gives_no_list :
    (weightedRow ["1e307"]).Metrics.filter isWeighted
        = [{ Metric := "crashRate7dUserWeighted", DecimalValue := "1e307" }]
      ∧ (weightedRow ["0.03"]).Metrics.filter isWeighted
        = [{ Metric := "crashRate7dUserWeighted", DecimalValue := "0.03" }]
      ∧ getWeeklyAvgComparison
          (bothSucceed [weightedRow ["0.5"], weightedRow ["1e307"]] [weightedRow ["0.03"]])
        = .returned { status := 500, contentType := "text/plain; charset=utf-8",
                      body := .error (.jsonUnsupported (.inf false)) } := by
  decide

/-- C4, amended: when the last row of each window carries
`crashRate7dUserWeighted` once, with values `p` and `c`, the slice handed to
the encoder is exactly the week-0 entry with `p * 100` followed by the week-1
entry with `c * 100` (float64 products), whatever the rows before the last
ones are. When both products are finite the response is status 200 with
content type `application/json` and the JSON array of the two entries and a
newline as body; when one of them is not finite the response is status 500
with the encoder's error for the first such value. For `0.02` and `0.03` the
body is the array of `week 0, value 2` and `week 1, value 3`. -/
theorem comparison_two_windows (pre cur : List MetricsRow) (lastP lastC : MetricsRow)
    (p c : String)
    (hp : lastP.Metrics.filter isWeighted
      = [{ Metric := "crashRate7dUserWeighted", DecimalValue := p }])
    (hc : lastC.Metrics.filter isWeighted
      = [{ Metric := "crashRate7dUserWeighted", DecimalValue := c }]) :
    weeklyAvgOf (pre ++ [lastP]) (cur ++ [lastC])
        = some [{ Week := 0, Value := scaled p }, { Week := 1, Value := scaled c }]
      ∧ (∀ n0 m0 e0 n1 m1 e1, scaled p = .fin n0 m0 e0 → scaled c = .fin n1 m1 e1 →
          getWeeklyAvgComparison (bothSucceed (pre ++ [lastP]) (cur ++ [lastC]))
            = .returned (jsonResponse
                (['['] ++ entryText 0 n0 m0 e0 ++ [','] ++ entryText 1 n1 m1 e1 ++ [']'])))
      ∧ ((scaled p).isFinite = false →
          getWeeklyAvgComparison (bothSucceed (pre ++ [lastP]) (cur ++ [lastC]))
            = .returned { status := 500, contentType := "text/plain; charset=utf-8",
                          body := .error (.jsonUnsupported (scaled p)) })
      ∧ ((scaled p).isFinite = true → (scaled c).isFinite = false →
          getWeeklyAvgComparison (bothSucceed (pre ++ [lastP]) (cur ++ [lastC]))
            = .returned { status := 500, contentType := "text/plain; charset=utf-8",
                          body := .error (.jsonUnsupported (scaled c)) })
      ∧ getWeeklyAvgComparison
          (bothSucceed [weightedRow ["0.5"], weightedRow ["0.02"]] [weightedRow ["0.03"]])
        = .returned
            { status := 200
              contentType := "application/json"
              body := .text
                "[\x7b\"week\":0,\"value\":2\x7d,\x7b\"week\":1,\"value\":3\x7d]\n" } := by
  have h : weeklyAvgOf (pre ++ [lastP]) (cur ++ [lastC])
      = some [{ Week := 0, Value := scaled p }, { Week := 1, Value := scaled c }] := by
    unfold weeklyAvgOf
    rw [appendWindow_eq, appendWindow_eq, windowEntries_snoc, windowEntries_snoc, hp, hc]
    simp [emitted]
  refine ⟨h, ?_, ?_, ?_, by decide⟩
  · intro n0 m0 e0 n1 m1 e1 h0 h1
    rw [comparison_response _ _ _ h]
    simp only [writeWeeklyAvg, marshalWeeklyAvg, encodeEntries, encodeEntry_fin 0 _ _ _ _ h0,
      encodeEntry_fin 1 _ _ _ _ h1, jsonResponse]
    simp
  · intro h0
    rw [comparison_response _ _ _ h]
    simp only [writeWeeklyAvg, marshalWeeklyAvg, encodeEntries, encodeEntry_nonfinite 0 _ h0,
      httpError]
  · intro h0 h1
    rw [comparison_response _ _ _ h]
    cases hv : scaled p with
    | nan => rw [hv] at h0; exact Bool.noConfusion h0
    | inf s => rw [hv] at h0; exact Bool.noConfusion h0
    | fin n0 m0 e0 =>
      simp only [writeWeeklyAvg, marshalWeeklyAvg, encodeEntries, encodeEntry_fin 0 _ _ _ _ rfl,
        encodeEntry_nonfinite 1 _ h1, httpError]

/-- C4, witness: two rows in the previous window and two in the current one,
the last ones carrying `0.02` and `0.03`. -/
theorem comparison_two_windows_witness :
    weeklyAvgOf ([weightedRow ["0.5"]] ++ [weightedRow ["0.02"]])
        ([weightedRow []] ++ [weightedRow ["0.03"]])
      = some [{ Week := 0, Value := scaled "0.02" }, { Week := 1, Value := scaled "0.03" }] :=
  (comparison_two_windows [weightedRow ["0.5"]] [weightedRow []] (weightedRow ["0.02"])
    (weightedRow ["0.03"]) "0.02" "0.03" (by decide) (by decide)).1

/-- C5, counterexample: the previous window is empty and the one row of the
current window carries the decimal value `1e307`; the product with 100 is not
finite, the encoder fails and the status is 500. -/
theorem comparison_overflow_sets_500 :
    getWeeklyAvgComparison (bothSucceed [] [weightedRow ["1e307"]])
      = .returned { status := 500, contentType := "text/plain; charset=utf-8",
                    body := .error (.jsonUnsupported (.inf false)) } := by
  decide

/-- C5, amended: when the previous window has no rows and the last row of the
current window carries `crashRate7dUserWeighted` once, with value `c`, the
slice is exactly the week-1 entry with `c * 100` and no week-0 entry is in
it; when `c * 100` is a finite float64 the status is 200 and the body is the
JSON array of that entry; when `c * 100` is not finite the encoder fails and
the status is 500; for one row with `0.05` the body is the array of
`week 1, value 5`. -/
theorem comparison_previous_empty (cur : List MetricsRow) (lastC : MetricsRow) (c : String)
    (hc : lastC.Metrics.filter isWeighted
      = [{ Metric := "crashRate7dUserWeighted", DecimalValue := c }]) :
    weeklyAvgOf [] (cur ++ [lastC]) = some [{ Week := 1, Value := scaled c }]
      ∧ (∀ wa ∈ emitted (weeklyAvgOf [] (cur ++ [lastC])), wa.Week ≠ 0)
      ∧ (∀ neg m e, scaled c = .fin neg m e →
          getWeeklyAvgComparison (bothSucceed [] (cur ++ [lastC]))
            = .returned
                { status := 200
                  contentType := "application/json"
                  body := .text (String.mk (['['] ++ ("\x7b\"week\":1,\"value\":".data ++
                    jsonFloat neg m e ++ "\x7d".data) ++ [']']) ++ "\n") })
      ∧ ((scaled c).isFinite = false →
          getWeeklyAvgComparison (bothSucceed [] (cur ++ [lastC]))
            = .returned { status := 500, contentType := "text/plain; charset=utf-8",
                          body := .error (.jsonUnsupported (scaled c)) })
      ∧ getWeeklyAvgComparison (bothSucceed [] [weightedRow ["0.05"]])
        = .returned
            { status := 200
              contentType := "application/json"
              body := .text "[\x7b\"week\":1,\"value\":5\x7d]\n" } := by
  have h : weeklyAvgOf [] (cur ++ [lastC]) = some [{ Week := 1, Value := scaled c }] := by
    unfold weeklyAvgOf
    rw [appendWindow_eq, appendWindow_eq, windowEntries_snoc, windowEntries_nil, hc]
    simp [emitted]
  refine ⟨h, ?_, ?_, ?_, by decide⟩
  · intro wa hwa
    rw [h] at hwa
    simp only [emitted, List.mem_singleton] at hwa
    rw [hwa]
    show (1 : Int) ≠ 0
    decide
  · intro neg m e hfin
    simp only [getWeeklyAvgComparison, bothSucceed, h, writeWeeklyAvg, marshalWeeklyAvg,
      encodeEntries, encodeEntry, hfin]
    simp [fmtInt, natDigits, natDigitsAux, digitChar]
  · intro hnf
    rw [comparison_response _ _ _ h]
    simp only [writeWeeklyAvg, marshalWeeklyAvg, encodeEntries, encodeEntry_nonfinite 1 _ hnf,
      httpError]

/-- C5, witness: an empty previous window and a current window ending in `0.05`. -/
theorem comparison_previous_empty_witness :
    weeklyAvgOf [] ([weightedRow ["0.5"]] ++ [weightedRow ["0.05"]])
      = some [{ Week := 1, Value := scaled "0.05" }] :=
  (comparison_previous_empty [weightedRow ["0.5"]] (weightedRow ["0.05"]) "0.05" (by decide)).1

/-- C6, counterexample: a last row that lists `crashRate7dUserWeighted` twice
gives two entries for its window, here four entries in all, two of them
tagged week 0. -/
theorem comparison_repeated_metric_entries :
    (emitted (weeklyAvgOf [weightedRow ["0.02", "0.03"]] [weightedRow ["0.04", "0.05"]])).length = 4
      ∧ ((emitted (weeklyAvgOf [weightedRow ["0.02", "0.03"]]
            [weightedRow ["0.04", "0.05"]])).filter (fun wa => decide (wa.Week = 0))).length
          = 2 := by
  decide

/-- C6, amended: for every pair of successful query results every entry is
tagged week 0 or week 1, every week-0 entry precedes every week-1 entry, and
each window contributes as many entries as its last row has metric values
named `crashRate7dUserWeighted`; so the list has 0, 1 or 2 entries, at most
one per week, whenever neither last row names the metric more than once. -/
theorem comparison_entries_by_window (previous current : List MetricsRow) :
    (∀ wa ∈ emitted (weeklyAvgOf previous current), wa.Week = 0 ∨ wa.Week = 1)
      ∧ (emitted (weeklyAvgOf previous current)).Pairwise (fun a b => a.Week ≤ b.Week)
      ∧ ((emitted (weeklyAvgOf previous current)).filter (fun wa => decide (wa.Week = 0))).length
          = weightedCount previous
      ∧ ((emitted (weeklyAvgOf previous current)).filter (fun wa => decide (wa.Week = 1))).length
          = weightedCount current
      ∧ (emitted (weeklyAvgOf previous current)).length
          = weightedCount previous + weightedCount current
      ∧ (weightedCount previous ≤ 1 → weightedCount current ≤ 1 →
          (emitted (weeklyAvgOf previous current)).length ≤ 2) := by
  rw [emitted_weeklyAvgOf]
  refine ⟨?_, ?_, ?_, ?_, ?_, ?_⟩
  · intro wa hwa
    simp only [windowEntries, List.mem_append, List.mem_map] at hwa
    rcases hwa with ⟨mv, _, rfl⟩ | ⟨mv, _, rfl⟩
    · exact Or.inl rfl
    · exact Or.inr rfl
  · rw [List.pairwise_append]
    refine ⟨?_, ?_, ?_⟩
    · simp only [windowEntries, List.pairwise_map]
      exact List.Pairwise.imp (fun _ => le_refl _) (List.pairwise_of_forall (fun _ _ => trivial))
    · simp only [windowEntries, List.pairwise_map]
      exact List.Pairwise.imp (fun _ => le_refl _) (List.pairwise_of_forall (fun _ _ => trivial))
    · intro a ha b hb
      simp only [windowEntries, List.mem_map] at ha hb
      rcases ha with ⟨_, _, rfl⟩
      rcases hb with ⟨_, _, rfl⟩
      show (0 : Int) ≤ 1
      decide
  · simp [windowEntries, weightedCount, List.filter_map, Function.comp_def]
  · simp [windowEntries, weightedCount, List.filter_map, Function.comp_def]
  · simp [windowEntries, weightedCount]
  · intro hp hc
    have hlen : (windowEntries 0 previous ++ windowEntries 1 current).length
        = weightedCount previous + weightedCount current := by
      simp [windowEntries, weightedCount]
    omega

/-- C6, witness: two rows in the previous window and one in the current one,
each last row naming the metric once. -/
theorem comparison_entries_by_window_witness :
    (emitted (weeklyAvgOf [weightedRow ["0.5"], weightedRow ["0.02"]]
      [weightedRow ["0.03"]])).length ≤ 2 :=
  (comparison_entries_by_window [weightedRow ["0.5"], weightedRow ["0.02"]]
    [weightedRow ["0.03"]]).2.2.2.2.2 (by decide) (by decide)

/-! ## Claims on `getWeeklyCrashRate`: failures upstream -/

/-- C3, counterexample: when the query returns an error the handler returns
without writing, so the client gets status 200 and an empty body, not 500. -/
theorem crashrate_query_error_is_silent :
    getWeeklyCrashRate (queryFails "googleapi: Error 403: forbidden")
        = .returned { status := 200, contentType := "", body := .empty }
      ∧ getWeeklyCrashRate (queryFails "googleapi: Error 403: forbidden")
        ≠ .returned (httpError (.library "googleapi: Error 403: forbidden")) := by
  decide

/-- C3, amended: whenever the credentials load, the service is created and the
metrics query returns an error, the handler returns without writing anything:
the response has status 200, no content type and an empty body. -/
theorem crashrate_query_error_untouched (env : CrashRateEnv) (msg : String)
    (htok : env.tokenSource = none) (hsvc : env.newService = none)
    (hq : env.query = .error msg) :
    getWeeklyCrashRate env = .returned { status := 200, contentType := "", body := .empty } := by
  simp [getWeeklyCrashRate, htok, hsvc, hq, untouched]

/-- C3, witness: an environment whose query fails. -/
theorem crashrate_query_error_untouched_witness :
    getWeeklyCrashRate (queryFails "timeout")
      = .returned { status := 200, contentType := "", body := .empty } :=
  crashrate_query_error_untouched (queryFails "timeout") "timeout" rfl rfl rfl

/-! ## Claims on `getWeeklyCrashRate`: rows, dates and values -/

/-- C7, counterexample: 5 March 999 is a real calendar date, but the year is
printed with three digits, `time.Parse` rejects the string, and the request
ends with status 500 and no chart point. -/
theorem trend_three_digit_year_fails :
    realDate (crashRow 999 3 5 "0.0123").StartTime = true
      ∧ chartPoints (crashDataList [crashRow 999 3 5 "0.0123"])
        = .error (.timeParse "05/03/999")
      ∧ getWeeklyCrashRate (allSucceed [crashRow 999 3 5 "0.0123"])
        = .returned (httpError (.timeParse "05/03/999")) := by
  decide

/-- C7, amended: when every row carries a `crashRate` metric and a start date
that is a real calendar date with a four-digit year (1000 to 9999), the loop
yields `xys` with one point per row, the i-th point being the point of the
i-th row: X is the Unix time of that row's start date and Y the value parsed
from that row's display string. -/
theorem trend_one_point_per_row (rows : List MetricsRow)
    (h : ∀ row ∈ rows, (∃ mv ∈ row.Metrics, mv.Metric = "crashRate")
      ∧ realDate row.StartTime = true ∧ fourDigitYear row.StartTime = true) :
    ∃ xys, chartPoints (crashDataList rows) = .ok xys
      ∧ xys.length = rows.length
      ∧ (∀ i (hi : i < rows.length), xys[i]? = some (pointOf (rows.get ⟨i, hi⟩)))
      ∧ xys = rows.map pointOf := by
  refine ⟨rows.map pointOf, ?_, by simp, ?_, rfl⟩
  · exact chartPoints_of_valid rows
      (fun row hrow => chartPoint_of_valid row (h row hrow).1 (h row hrow).2.1 (h row hrow).2.2)
  · intro i hi
    simp [List.getElem?_map, List.getElem?_eq_getElem hi]

/-- C7, witness: two rows of March 2024. -/
theorem trend_one_point_per_row_witness :
    chartPoints (crashDataList [crashRow 2024 3 5 "0.0123", crashRow 2024 3 6 "0.02"])
      = .ok ([crashRow 2024 3 5 "0.0123", crashRow 2024 3 6 "0.02"].map pointOf) := by
  obtain ⟨xys, h1, _, _, h4⟩ :=
    trend_one_point_per_row [crashRow 2024 3 5 "0.0123", crashRow 2024 3 6 "0.02"] (by decide)
  rw [← h4]
  exact h1

/-- C9, counterexample: a row without a `crashRate` metric keeps the empty
date string, whatever its start date is. -/
theorem format_date_empty_without_metric :
    (weightedRow ["0.02"]).StartTime = { Year := 2024, Month := 3, Day := 5 }
      ∧ (formatCrashData (weightedRow ["0.02"])).Date = "" := by
  decide

/-- C9, amended: for every row that carries a `crashRate` metric the date
string is `%02d/%02d/%d` of the day, month and year of its start date: day and
month are written with exactly two digits when they lie in 0..99 (a zero in
front below 10), with all their digits from 100 on, and as a minus sign and
their digits when negative; the year is written in decimal, after a minus
sign when negative. For 5 March 2024 the string is `05/03/2024`. A row
without a `crashRate` metric gets the empty date string. -/
theorem format_date_day_month_year (row : MetricsRow) :
    (hasCrashRate row = true →
        (formatCrashData row).Date
          = String.mk (fmtInt02 row.StartTime.Day ++ ['/'] ++ fmtInt02 row.StartTime.Month
              ++ ['/'] ++ fmtInt row.StartTime.Year))
      ∧ (hasCrashRate row = false → (formatCrashData row).Date = "")
      ∧ (∀ n : Nat, n < 100 → fmtInt02 (n : Int) = [digitChar (n / 10), digitChar (n % 10)])
      ∧ (∀ n : Nat, 100 ≤ n → fmtInt02 (n : Int) = natDigits n)
      ∧ (∀ n : Nat, fmtInt02 (-((n : Int) + 1)) = '-' :: natDigits (n + 1))
      ∧ (∀ n : Nat, fmtInt (n : Int) = natDigits n)
      ∧ (∀ n : Nat, fmtInt (-((n : Int) + 1)) = '-' :: natDigits (n + 1))
      ∧ (∀ n : Nat, natDigits n ≠ [] ∧ (∀ ch ∈ natDigits n, isDigit ch = true)
          ∧ digitsVal (natDigits n) = n)
      ∧ (∀ v, (formatCrashData (crashRow 2024 3 5 v)).Date = "05/03/2024") := by
  refine ⟨?_, ?_, ?_, fmtInt02_large, fmtInt02_neg, fmtInt_natCast, fmtInt_neg, natDigits_spec, ?_⟩
  · intro hcr
    obtain ⟨v, hv⟩ := crashRateValue_some row hcr
    rw [formatCrashData_eq, hv]
    rfl
  · intro hcr
    rw [formatCrashData_eq, crashRateValue_none row hcr]
  · intro n hn
    rw [fmtInt02_natCast, pad2_eq n hn]
  · intro v
    rw [formatCrashData_eq]
    have : crashRateValue (crashRow 2024 3 5 v) = some v := by
      simp [crashRateValue, crashRow, isCrashRate]
    rw [this]
    show dateString { Year := 2024, Month := 3, Day := 5 } = "05/03/2024"
    decide

/-- C9, witness: the row of 5 March 2024. -/
theorem format_date_day_month_year_witness :
    (formatCrashData (crashRow 2024 3 5 "0.0123")).Date
      = String.mk (fmtInt02 (crashRow 2024 3 5 "0.0123").StartTime.Day ++ ['/']
          ++ fmtInt02 (crashRow 2024 3 5 "0.0123").StartTime.Month ++ ['/']
          ++ fmtInt (crashRow 2024 3 5 "0.0123").StartTime.Year) :=
  (format_date_day_month_year (crashRow 2024 3 5 "0.0123")).1 (by decide)

/-- C2, counterexample: a result with a row whose `crashRate` value is `abc`
is answered with status 200 and an image whose point for that row has Y = 0. -/
theorem crashrate_abc_is_plotted :
    getWeeklyCrashRate (allSucceed [crashRow 2024 3 5 "abc", crashRow 2024 3 6 "0.0123"])
      = .returned
          { status := 200
            contentType := "image/png"
            body := .png [{ X := F64.ofInt 1709596800, Y := F64.zero },
                          { X := F64.ofInt 1709683200, Y := roundToF64 false 123 100 }] } := by
  decide

/-- C2, amended: a row whose `crashRate` value does not scan as a number is
treated as the value 0: its display string is `0.00%` and its point has
Y = 0; when every row of the result carries `crashRate` and a start date that
parses, and rendering succeeds, the response is the image with one point per
row and status 200, not 500. -/
theorem crashrate_nonnumeric_plotted_as_zero (rows : List MetricsRow) (row : MetricsRow)
    (v : String) (hmem : row ∈ rows) (hv : crashRateValue row = some v)
    (hnon : sscanfFloat v = none)
    (hvalid : ∀ r ∈ rows, (∃ mv ∈ r.Metrics, mv.Metric = "crashRate")
      ∧ realDate r.StartTime = true ∧ fourDigitYear r.StartTime = true) :
    parseDecimal v = F64.zero
      ∧ (formatCrashData row).CrashRate = "0.00%"
      ∧ (pointOf row).Y = F64.zero
      ∧ pointOf row ∈ rows.map pointOf
      ∧ getWeeklyCrashRate (allSucceed rows)
        = .returned { status := 200, contentType := "image/png", body := .png (rows.map pointOf) } := by
  have hz : parseDecimal v = F64.zero := by simp [parseDecimal, hnon]
  have hd : (formatCrashData row).CrashRate = "0.00%" := by
    rw [formatCrashData_eq, hv]
    simp only [displayRate, scaled, hz]
    decide
  refine ⟨hz, hd, ?_, List.mem_map_of_mem _ hmem, ?_⟩
  · simp only [pointOf, hd]
    decide
  · exact renderCrashRate_allSucceed rows _ (chartPoints_of_valid rows
      (fun r hr => chartPoint_of_valid r (hvalid r hr).1 (hvalid r hr).2.1 (hvalid r hr).2.2))

/-- C2, witness: a result whose first row has the value `abc`. -/
theorem crashrate_nonnumeric_plotted_as_zero_witness :
    (formatCrashData (crashRow 2024 3 5 "abc")).CrashRate = "0.00%" :=
  (crashrate_nonnumeric_plotted_as_zero [crashRow 2024 3 5 "abc", crashRow 2024 3 6 "0.0123"]
    (crashRow 2024 3 5 "abc") "abc" (by decide) (by decide) (by decide) (by decide)).2.1

/-- C8, counterexample: for the decimal value `1e307` the product with 100 is
not a finite float64 and the string is `+Inf%`, without decimal places. -/
theorem display_overflow_has_no_decimals :
    scaled "1e307" = .inf false
      ∧ (formatCrashData (crashRow 2024 3 5 "1e307")).CrashRate = "+Inf%" := by
  decide

/-- C8, amended: for every row carrying a `crashRate` metric with decimal value
`d` such that `d * 100` is a finite float64, the string `CrashRate` is an
optional minus sign, one or more digits, a point, exactly two digits and `%`;
the number it shows is `d * 100` in hundredths as `%.2f` rounds it; and the
plotted Y value is the float64 of that shown number. For `0.0123` the string
is `1.23%` and the plotted value is the float64 of 1.23. -/
theorem display_two_decimals (row : MetricsRow) (d : String) (neg : Bool) (m : Nat) (e : Int)
    (hv : crashRateValue row = some d) (hfin : scaled d = .fin neg m e) :
    (∃ ip c1 c2, (formatCrashData row).CrashRate
          = String.mk (signChars neg ++ ip ++ ['.', c1, c2, '%'])
        ∧ ip ≠ [] ∧ (∀ c ∈ ip, isDigit c = true) ∧ isDigit c1 = true ∧ isDigit c2 = true
        ∧ digitsVal (ip ++ [c1, c2]) = shownHundredths m e)
      ∧ plottedOf (formatCrashData row).CrashRate = roundToF64 neg (shownHundredths m e) 100
      ∧ (pointOf row).Y = roundToF64 neg (shownHundredths m e) 100
      ∧ (formatCrashData (crashRow 2024 3 5 "0.0123")).CrashRate = "1.23%"
      ∧ (pointOf (crashRow 2024 3 5 "0.0123")).Y = roundToF64 false 123 100 := by
  have hrate : (formatCrashData row).CrashRate
      = String.mk (fmtFixed2 (.fin neg m e) ++ ['%']) := by
    rw [formatCrashData_eq, hv]
    simp only [displayRate, hfin]
  obtain ⟨hne, hall, hval⟩ := natDigits_spec (shownHundredths m e / 100)
  obtain ⟨htwo, htwoval⟩ := twoDigits_spec (shownHundredths m e)
  refine ⟨⟨natDigits (shownHundredths m e / 100), digitChar (shownHundredths m e / 10 % 10),
    digitChar (shownHundredths m e % 10), ?_, hne, hall, ?_, ?_, ?_⟩, ?_, ?_, by decide, by decide⟩
  · rw [hrate, fmtFixed2_fin]
    simp [twoDigits]
  · exact isDigit_digitChar _ (Nat.mod_lt _ (by decide))
  · exact isDigit_digitChar _ (Nat.mod_lt _ (by decide))
  · have h2 := digitsVal_append (natDigits (shownHundredths m e / 100))
      (twoDigits (shownHundredths m e))
    rw [hval, htwoval] at h2
    have hl : (twoDigits (shownHundredths m e)).length = 2 := rfl
    rw [hl] at h2
    unfold twoDigits at h2
    rw [h2]
    omega
  · rw [hrate, plottedOf_display]
  · simp only [pointOf]
    rw [hrate, plottedOf_display]

/-- C8, witness: the row with the value `0.0123`. -/
theorem display_two_decimals_witness :
    plottedOf (formatCrashData (crashRow 2024 3 5 "0.0123")).CrashRate
      = roundToF64 false (shownHundredths 5539427541665710 (-52)) 100 :=
  (display_two_decimals (crashRow 2024 3 5 "0.0123") "0.0123" false 5539427541665710 (-52)
    (by decide) (by decide)).2.1

/-- C10, counterexample: for `0.01239` the product with 100 has 123 whole
hundredths, so cutting after the second decimal gives 1.23, but the display
string is `1.24%` and the plotted value is the float64 of 1.24, not of 1.23. -/
theorem plotted_value_is_not_cut :
    scaled "0.01239" = .fin false 5579959938312045 (-52)
      ∧ cutHundredths 5579959938312045 (-52) = 123
      ∧ (formatCrashData (crashRow 2024 3 5 "0.01239")).CrashRate = "1.24%"
      ∧ (pointOf (crashRow 2024 3 5 "0.01239")).Y = roundToF64 false 124 100
      ∧ (pointOf (crashRow 2024 3 5 "0.01239")).Y ≠ roundToF64 false 123 100 := by
  decide

/-- C10, amended: for every `crashRate` decimal value `d` such that `d * 100`
is a finite float64 with magnitude `a / b`, the plotted value is the float64
of `h / 100`, where `h` is `a / b` in hundredths rounded to the nearest
integer (up when the digits cut off exceed a half, down when they are below
a half, to the even neighbour at exactly a half), and `h` is the number the
display string shows. -/
theorem plotted_value_is_rounded (row : MetricsRow) (d : String) (neg : Bool) (m : Nat) (e : Int)
    (hv : crashRateValue row = some d) (hfin : scaled d = .fin neg m e) :
    0 < (scale2 (m * 100) 1 e).2
      ∧ 2 * (scale2 (m * 100) 1 e).1 ≤ (2 * shownHundredths m e + 1) * (scale2 (m * 100) 1 e).2
      ∧ 2 * shownHundredths m e * (scale2 (m * 100) 1 e).2
          ≤ 2 * (scale2 (m * 100) 1 e).1 + (scale2 (m * 100) 1 e).2
      ∧ ((scale2 (m * 100) 1 e).2 < 2 * ((scale2 (m * 100) 1 e).1 % (scale2 (m * 100) 1 e).2) →
          shownHundredths m e = cutHundredths m e + 1)
      ∧ (2 * ((scale2 (m * 100) 1 e).1 % (scale2 (m * 100) 1 e).2) < (scale2 (m * 100) 1 e).2 →
          shownHundredths m e = cutHundredths m e)
      ∧ (2 * ((scale2 (m * 100) 1 e).1 % (scale2 (m * 100) 1 e).2) = (scale2 (m * 100) 1 e).2 →
          shownHundredths m e % 2 = 0)
      ∧ (pointOf row).Y = roundToF64 neg (shownHundredths m e) 100
      ∧ (formatCrashData row).CrashRate
          = String.mk (signChars neg ++ natDigits (shownHundredths m e / 100) ++ ['.']
              ++ twoDigits (shownHundredths m e) ++ ['%']) := by
  have hb := scale2_den_pos (m * 100) e
  have hrate : (formatCrashData row).CrashRate
      = String.mk (fmtFixed2 (.fin neg m e) ++ ['%']) := by
    rw [formatCrashData_eq, hv]
    simp only [displayRate, hfin]
  refine ⟨hb, (roundHalfEven_near _ _ hb).1, (roundHalfEven_near _ _ hb).2,
    roundHalfEven_up _ _, roundHalfEven_down _ _, roundHalfEven_tie _ _, ?_, ?_⟩
  · simp only [pointOf]
    rw [hrate, plottedOf_display]
  · rw [hrate, fmtFixed2_fin]

/-- C10, witness: the row with the value `0.01239`. -/
theorem plotted_value_is_rounded_witness :
    (pointOf (crashRow 2024 3 5 "0.01239")).Y
      = roundToF64 false (shownHundredths 5579959938312045 (-52)) 100 :=
  (plotted_value_is_rounded (crashRow 2024 3 5 "0.01239") "0.01239" false 5579959938312045 (-52)
    (by decide) (by decide)).2.2.2.2.2.2.1

end Vitals
